import Mathlib

/-!
Verification of the streaming tool-augmented chat protocol of the Levao AI
web client.  The definitions below are a shallow embedding of:

* `supabase/functions/chat/index.ts` — the chat edge function (gateway
  client, tool dispatcher, orchestrator, server-side stream drain);
* `src/components/ChatInterface.tsx` — the client-side SSE decoder loop
  and the send/persist logic;
* `src/components/MapView.tsx` — the route-drawing guard of the map surface.

Byte streams are modelled as `List Char` chunks: `TextDecoder` with
`stream: true` buffers partial UTF-8 sequences, so decoding chunk-by-chunk
agrees with decoding the concatenation and splitting mid-UTF8-character is
absorbed by the text layer; chunking at the character level is the faithful
residual model.

`JSON.parse` / `JSON.stringify` are modelled by an executable fuel-based
recursive-descent parser and a structural serializer over a `Json` value
type.  Numbers keep their raw numeral text (the development never compares
numerals produced by different spellings); `\uXXXX` escapes map to the
corresponding code unit.  `Json` is a mutual inductive (with its own list
and field-list types) so that all functions on it are plain structural
recursions the kernel can evaluate.
-/

mutual

/-- JSON values.  Numbers keep the raw numeral text. -/
inductive Json where
  | null
  | bool (b : Bool)
  | num (raw : String)
  | str (s : String)
  | arr (elems : JsonList)
  | obj (fields : JsonFields)

/-- A list of JSON values (array elements). -/
inductive JsonList where
  | nil
  | cons (hd : Json) (tl : JsonList)

/-- A list of key/value pairs (object members, in insertion order). -/
inductive JsonFields where
  | nil
  | cons (key : String) (val : Json) (tl : JsonFields)

end

deriving instance DecidableEq for Json, JsonList, JsonFields

/-- Build a `JsonList` from a Lean list. -/
def JsonList.ofList : List Json → JsonList
  | [] => .nil
  | x :: xs => .cons x (JsonList.ofList xs)

/-- View a `JsonList` as a Lean list. -/
def JsonList.toList : JsonList → List Json
  | .nil => []
  | .cons x xs => x :: JsonList.toList xs

/-- Build `JsonFields` from a Lean list of pairs. -/
def JsonFields.ofList : List (String × Json) → JsonFields
  | [] => .nil
  | (k, v) :: fs => .cons k v (JsonFields.ofList fs)

/-- View `JsonFields` as a Lean list of pairs. -/
def JsonFields.toList : JsonFields → List (String × Json)
  | .nil => []
  | .cons k v fs => (k, v) :: JsonFields.toList fs

/-- Array literal helper. -/
def jarr (xs : List Json) : Json := .arr (JsonList.ofList xs)

/-- Object literal helper. -/
def jobj (fs : List (String × Json)) : Json := .obj (JsonFields.ofList fs)

/-- Whitespace accepted by `JSON.parse` between tokens. -/
def isJsonWs (c : Char) : Bool :=
  c = ' ' || c = '\t' || c = '\n' || c = '\r'

/-- Skip leading JSON whitespace. -/
def skipWs : List Char → List Char
  | [] => []
  | c :: cs => if isJsonWs c then skipWs cs else c :: cs

/-- Hexadecimal digit value. -/
def hexVal (c : Char) : Option Nat :=
  if '0' ≤ c ∧ c ≤ '9' then some (c.toNat - '0'.toNat)
  else if 'a' ≤ c ∧ c ≤ 'f' then some (c.toNat - 'a'.toNat + 10)
  else if 'A' ≤ c ∧ c ≤ 'F' then some (c.toNat - 'A'.toNat + 10)
  else none

/-- Body of a JSON string literal after the opening quote.
Control characters are rejected, the standard escapes are handled and
`\uXXXX` yields the code unit as one character. -/
def parseStrBody : Nat → List Char → List Char → Option (String × List Char)
  | 0, _, _ => none
  | _ + 1, [], _ => none
  | f + 1, c :: cs, acc =>
    if c = '"' then some (String.mk acc.reverse, cs)
    else if c = '\\' then
      match cs with
      | [] => none
      | e :: cs' =>
        if e = '"' then parseStrBody f cs' ('"' :: acc)
        else if e = '\\' then parseStrBody f cs' ('\\' :: acc)
        else if e = '/' then parseStrBody f cs' ('/' :: acc)
        else if e = 'b' then parseStrBody f cs' ('\x08' :: acc)
        else if e = 'f' then parseStrBody f cs' ('\x0c' :: acc)
        else if e = 'n' then parseStrBody f cs' ('\n' :: acc)
        else if e = 'r' then parseStrBody f cs' ('\r' :: acc)
        else if e = 't' then parseStrBody f cs' ('\t' :: acc)
        else if e = 'u' then
          match cs' with
          | h1 :: h2 :: h3 :: h4 :: cs'' =>
            match hexVal h1, hexVal h2, hexVal h3, hexVal h4 with
            | some a, some b, some cnib, some d =>
              let n := ((a * 16 + b) * 16 + cnib) * 16 + d
              if h : n.isValidChar then
                parseStrBody f cs'' (Char.ofNatAux n h :: acc)
              else parseStrBody f cs'' ('�' :: acc)
            | _, _, _, _ => none
          | _ => none
        else none
    else if c.toNat < 32 then none
    else parseStrBody f cs (c :: acc)

/-- Split leading decimal digits from the rest. -/
def takeDigits (cs : List Char) : List Char × List Char :=
  (cs.takeWhile (fun c => '0' ≤ c ∧ c ≤ '9'), cs.dropWhile (fun c => '0' ≤ c ∧ c ≤ '9'))

/-- JSON numeral: sign, integer part, optional fraction and exponent.
(The model is lax about leading zeros.) -/
def parseNum (cs : List Char) : Option (String × List Char) :=
  let (sign, cs1) :=
    match cs with
    | '-' :: rest => (['-'], rest)
    | _ => (([] : List Char), cs)
  let (intPart, cs2) := takeDigits cs1
  if intPart = [] then none
  else
    let (fracPart, cs3) :=
      match cs2 with
      | '.' :: rest =>
        let (ds, r) := takeDigits rest
        if ds = [] then (([] : List Char), cs2) else ('.' :: ds, r)
      | _ => (([] : List Char), cs2)
    let (expPart, cs4) :=
      match cs3 with
      | e :: rest =>
        if e = 'e' ∨ e = 'E' then
          let (sgn, rest') :=
            match rest with
            | s :: r2 => if s = '+' ∨ s = '-' then ([s], r2) else (([] : List Char), rest)
            | [] => (([] : List Char), rest)
          let (ds, r) := takeDigits rest'
          if ds = [] then (([] : List Char), cs3) else (e :: (sgn ++ ds), r)
        else (([] : List Char), cs3)
      | [] => (([] : List Char), cs3)
    some (String.mk (sign ++ intPart ++ fracPart ++ expPart), cs4)

mutual

/-- Recursive-descent JSON value parser (fuel-based so that it is a plain
structural recursion the kernel can evaluate). -/
def parseVal : Nat → List Char → Option (Json × List Char)
  | 0, _ => none
  | f + 1, cs =>
    match skipWs cs with
    | [] => none
    | c :: rest =>
      if c = '"' then
        match parseStrBody (f + 1) rest [] with
        | some (s, r) => some (.str s, r)
        | none => none
      else if c = '[' then
        match skipWs rest with
        | ']' :: r => some (jarr [], r)
        | other => match parseElems f other with
          | some (xs, r) => some (jarr xs, r)
          | none => none
      else if c = '\x7b' then
        match skipWs rest with
        | '\x7d' :: r => some (jobj [], r)
        | other => match parseMembers f other with
          | some (fs, r) => some (jobj fs, r)
          | none => none
      else if c = 't' then
        match rest with
        | 'r' :: 'u' :: 'e' :: r => some (.bool true, r)
        | _ => none
      else if c = 'f' then
        match rest with
        | 'a' :: 'l' :: 's' :: 'e' :: r => some (.bool false, r)
        | _ => none
      else if c = 'n' then
        match rest with
        | 'u' :: 'l' :: 'l' :: r => some (.null, r)
        | _ => none
      else
        match parseNum (c :: rest) with
        | some (s, r) => some (.num s, r)
        | none => none

/-- Comma-separated array elements, up to the closing bracket. -/
def parseElems : Nat → List Char → Option (List Json × List Char)
  | 0, _ => none
  | f + 1, cs =>
    match parseVal f cs with
    | none => none
    | some (v, r) =>
      match skipWs r with
      | ',' :: r2 =>
        match parseElems f r2 with
        | some (xs, r3) => some (v :: xs, r3)
        | none => none
      | ']' :: r2 => some ([v], r2)
      | _ => none

/-- Comma-separated object members, up to the closing brace. -/
def parseMembers : Nat → List Char → Option (List (String × Json) × List Char)
  | 0, _ => none
  | f + 1, cs =>
    match skipWs cs with
    | '"' :: r =>
      match parseStrBody (f + 1) r [] with
      | none => none
      | some (k, r1) =>
        match skipWs r1 with
        | ':' :: r2 =>
          match parseVal f r2 with
          | none => none
          | some (v, r3) =>
            match skipWs r3 with
            | ',' :: r4 =>
              match parseMembers f r4 with
              | some (fs, r5) => some ((k, v) :: fs, r5)
              | none => none
            | '\x7d' :: r4 => some ([(k, v)], r4)
            | _ => none
        | _ => none
    | _ => none

end

/-- `JSON.parse`: parse a complete value, allowing surrounding whitespace;
any trailing garbage makes the parse fail (throw, modelled as `none`). -/
def Json.parse (cs : List Char) : Option Json :=
  match parseVal (3 * cs.length + 3) cs with
  | some (v, rest) => if skipWs rest = [] then some v else none
  | none => none

/-- Look up an object property.  `JSON.parse` lets a duplicated key's last
occurrence win, so the lookup scans from the right. -/
def jLookup (fields : JsonFields) (k : String) : Option Json :=
  (fields.toList.reverse.find? (fun f => f.1 = k)).map (·.2)

/-- Is a JSON numeral the number zero (the only falsy number)? -/
def numIsZero (raw : String) : Bool :=
  let base := (raw.toList.dropWhile (· = '-')).takeWhile (fun c => c ≠ 'e' ∧ c ≠ 'E')
  base.all (fun c => c = '0' ∨ c = '.')

/-- JavaScript truthiness of a JSON value. -/
def jsTruthy : Json → Bool
  | .null => false
  | .bool b => b
  | .num raw => !numIsZero raw
  | .str s => !s.isEmpty
  | .arr _ => true
  | .obj _ => true

mutual

/-- `String(v)` coercion of a JSON value. -/
def jsToStr : Json → String
  | .null => "null"
  | .bool true => "true"
  | .bool false => "false"
  | .num raw => raw
  | .str s => s
  | .arr xs => jsToStrElems xs
  | .obj _ => "[object Object]"

/-- `String(v)` coercion of array elements (comma separated). -/
def jsToStrElems : JsonList → String
  | .nil => ""
  | .cons x .nil => jsToStr x
  | .cons x (.cons y tl) => jsToStr x ++ "," ++ jsToStrElems (.cons y tl)

end

/-- Template-literal display of a possibly-undefined value
(`undefined` interpolates as the string "undefined"). -/
def jsDisplay : Option Json → String
  | none => "undefined"
  | some v => jsToStr v

/-- Hex digit for escaping. -/
def hexDigit (n : Nat) : Char :=
  if n < 10 then Char.ofNat ('0'.toNat + n) else Char.ofNat ('a'.toNat + n - 10)

/-- Escape one character for a JSON string literal. -/
def escChar (c : Char) : List Char :=
  if c = '"' then ['\\', '"']
  else if c = '\\' then ['\\', '\\']
  else if c = '\n' then ['\\', 'n']
  else if c = '\r' then ['\\', 'r']
  else if c = '\t' then ['\\', 't']
  else if c = '\x08' then ['\\', 'b']
  else if c = '\x0c' then ['\\', 'f']
  else if c.toNat < 32 then
    ['\\', 'u', '0', '0', hexDigit (c.toNat / 16), hexDigit (c.toNat % 16)]
  else [c]

/-- Serialize a string with JSON escaping, including the quotes. -/
def strLit (s : String) : String :=
  "\"" ++ String.mk (s.toList.flatMap escChar) ++ "\""

mutual

/-- `JSON.stringify` of a JSON value. -/
def jsonStringify : Json → String
  | .null => "null"
  | .bool true => "true"
  | .bool false => "false"
  | .num raw => raw
  | .str s => strLit s
  | .arr xs => "[" ++ stringifyElems xs ++ "]"
  | .obj fs => "\x7b" ++ stringifyMembers fs ++ "\x7d"

/-- Serialize array elements, comma separated. -/
def stringifyElems : JsonList → String
  | .nil => ""
  | .cons x .nil => jsonStringify x
  | .cons x (.cons y tl) => jsonStringify x ++ "," ++ stringifyElems (.cons y tl)

/-- Serialize object members, comma separated. -/
def stringifyMembers : JsonFields → String
  | .nil => ""
  | .cons k v .nil => strLit k ++ ":" ++ jsonStringify v
  | .cons k v (.cons k2 v2 tl) =>
    strLit k ++ ":" ++ jsonStringify v ++ "," ++ stringifyMembers (.cons k2 v2 tl)

end

/-- Optional-chained property access `v?.k`: `null`/`undefined` short-circuit
to `undefined`; primitives have no own properties here. -/
def optProp (v? : Option Json) (k : String) : Option Json :=
  match v? with
  | some (.obj fs) => jLookup fs k
  | _ => none

/-- Optional-chained index access `v?.[n]`. -/
def optIdx (v? : Option Json) (n : Nat) : Option Json :=
  match v? with
  | some (.arr xs) => xs.toList.get? n
  | some (.str s) => (s.toList.get? n).map (fun c => .str (String.mk [c]))
  | some (.obj fs) => jLookup fs (toString n)
  | _ => none

/-- Message of a thrown `TypeError` (property access on `null`/`undefined`). -/
def jsTypeErrMsg : String := "TypeError: cannot read properties of null or undefined"

/-- Message of a thrown `SyntaxError` from `JSON.parse`. -/
def jsSyntaxErrMsg : String := "SyntaxError: unexpected token in JSON"

/-- Plain (non-optional) property access `v.k`: throws a `TypeError` on
`null`, yields `undefined` on other primitives. -/
def jsPropE (v : Json) (k : String) : Except String (Option Json) :=
  match v with
  | .null => .error jsTypeErrMsg
  | .obj fs => .ok (jLookup fs k)
  | _ => .ok none

/-- Characters stripped by JavaScript `String.prototype.trim`. -/
def isJsWs (c : Char) : Bool :=
  c = ' ' || c = '\t' || c = '\n' || c = '\r' || c = '\x0b' || c = '\x0c'

/-- JavaScript `trim()` on character lists. -/
def jsTrim (l : List Char) : List Char :=
  ((l.dropWhile isJsWs).reverse.dropWhile isJsWs).reverse

/-- Split off the first `'\n'`-terminated line of a buffer, if any. -/
def splitFirstLine : List Char → Option (List Char × List Char)
  | [] => none
  | c :: cs =>
    if c = '\n' then some ([], cs)
    else (splitFirstLine cs).map (fun lr => (c :: lr.1, lr.2))

/-- All complete `'\n'`-terminated lines of a buffer, plus the unterminated
remainder. -/
def chunksLines : List Char → List (List Char) × List Char
  | [] => ([], [])
  | c :: cs =>
    let p := chunksLines cs
    if c = '\n' then ([] :: p.1, p.2)
    else
      match p.1 with
      | [] => ([], c :: p.2)
      | l :: ls => ((c :: l) :: ls, p.2)

/-- JavaScript `split('\n')`: every piece, including the final unterminated
one. -/
def splitAllNl (cs : List Char) : List (List Char) :=
  (chunksLines cs).1 ++ [(chunksLines cs).2]

/-! ## Transport decoders

`lineResClient` is the per-line behaviour of the client SSE loop in
`ChatInterface.tsx` (`streamChat`): strip a trailing `\r`, skip comments and
blank lines, require the `data: ` field marker, recognise the `[DONE]`
sentinel, otherwise `JSON.parse` the payload and read
`parsed.choices?.[0]?.delta?.content`; parse failures and exceptions are
swallowed by the `try/catch` and falsy content is not appended. -/

/-- Outcome of processing one complete line in the client decoder. -/
inductive LineRes where
  | skip
  | done
  | delta (s : String)
deriving DecidableEq

/-- `JSON.parse(payload)` followed by `parsed.choices?.[0]?.delta?.content`.
`none` covers parse failure, an exception from accessing a property of
`null` (both caught by the surrounding `try`) and an absent field. -/
def deltaContentOf (payload : List Char) : Option Json :=
  match Json.parse payload with
  | none => none
  | some parsed =>
    match jsPropE parsed "choices" with
    | .error _ => none
    | .ok choices? => optProp (optProp (optIdx choices? 0) "delta") "content"

/-- Per-line behaviour of the client decoder loop. -/
def lineResClient (line0 : List Char) : LineRes :=
  let line := if line0.getLast? = some '\r' then line0.dropLast else line0
  if line.head? = some ':' ∨ jsTrim line = [] then .skip
  else if "data: ".toList.isPrefixOf line then
    let jsonStr := jsTrim (line.drop 6)
    if jsonStr = "[DONE]".toList then .done
    else
      match deltaContentOf jsonStr with
      | some v => if jsTruthy v then .delta (jsToStr v) else .skip
      | none => .skip
  else .skip

/-- The client's inner `while ((newlineIndex = buffer.indexOf("\n")) !== -1)`
loop: repeatedly split a complete line off the buffer and process it; a
`[DONE]` line `break`s out, leaving the rest of the buffer untouched.
Fuel-based (one unit per extracted line) so the kernel can evaluate it. -/
def clientStepF : Nat → List Char → List String → List Char × List String
  | 0, buf, acc => (buf, acc)
  | f + 1, buf, acc =>
    match splitFirstLine buf with
    | none => (buf, acc)
    | some (line, rest) =>
      match lineResClient line with
      | .done => (rest, acc)
      | .delta s => clientStepF f rest (acc ++ [s])
      | .skip => clientStepF f rest acc

/-- One `reader.read()` iteration's line processing, with sufficient fuel. -/
def clientStep (buf : List Char) (acc : List String) : List Char × List String :=
  clientStepF (buf.length + 1) buf acc

/-- The client's outer read loop: append each chunk to the buffer, then run
the line loop. -/
def clientRun : List (List Char) → List Char × List String → List Char × List String
  | [], st => st
  | c :: cs, st => clientRun cs (clientStep (st.1 ++ c) st.2)

/-- The ordered content deltas the client decoder appends for a given
chunking of the byte stream. -/
def clientDeltas (chunks : List (List Char)) : List String :=
  (clientRun chunks ([], [])).2

/-! The server-side drain of the map-payload branch
(`supabase/functions/chat/index.ts`, the `if (mapData)` reader loop): each
chunk is split on `'\n'` on its own — there is no carry-over buffer — and
every `data: ` line other than the exact `data: [DONE]` is parsed, its
delta content appended with `|| ""` as the fallback. -/

/-- Process one line of the server-side drain. -/
def drainLine (acc : String) (line : List Char) : String :=
  if "data: ".toList.isPrefixOf line ∧ line ≠ "data: [DONE]".toList then
    match deltaContentOf (line.drop 6) with
    | some v => acc ++ (if jsTruthy v then jsToStr v else "")
    | none => acc
  else acc

/-- Process one decoded chunk of the server-side drain. -/
def drainChunk (acc : String) (c : List Char) : String :=
  (splitAllNl c).foldl drainLine acc

/-- The full content accumulated by the server-side drain over a chunking. -/
def drainChunks (chunks : List (List Char)) : String :=
  chunks.foldl drainChunk ""

/-! ## The `get_location` payload parser -/

/-- Three backticks. -/
def bq3 : List Char := "```".toList

/-- A ```` ```json ```` fence opener. -/
def bqJson : List Char := "```json".toList

/-- Code-fence stripping in `getLocationData`: trim, drop a leading
```` ```json ```` (7 chars) or ```` ``` ```` (3 chars), drop a trailing
```` ``` ````, trim again. -/
def cleanFence (content : List Char) : List Char :=
  let c0 := jsTrim content
  let c1 :=
    if bqJson.isPrefixOf c0 then c0.drop 7
    else if bq3.isPrefixOf c0 then c0.drop 3
    else c0
  let c2 := if bq3.isSuffixOf c1 then c1.take (c1.length - 3) else c1
  jsTrim c2

/-- `try { return JSON.parse(clean) } catch { return { message: content,
locations: [] } }` — the fallback keeps the raw (unstripped) output. -/
def parseLocationContent (content : String) : Json :=
  match Json.parse (cleanFence content.toList) with
  | some v => v
  | none => jobj [("message", .str content), ("locations", jarr [])]

/-! ## Gateway responses and the tool executors -/

/-- A gateway HTTP response: status, body text (used by `.json()` and
`.text()`) and, for `stream: true` calls, the body chunks as delivered. -/
structure HttpResp where
  status : Nat
  body : String
  chunks : List (List Char)

/-- `response.ok`: status in the 2xx range. -/
def HttpResp.ok (r : HttpResp) : Bool := 200 ≤ r.status && r.status < 300

/-- `const data = await response.json();
data.choices?.[0]?.message?.content` — `.json()` rejects on a malformed
body (propagating to the outer catch), and `.choices` on a `null` document
throws a `TypeError`. -/
def fetchContentE (r : HttpResp) : Except String (Option Json) :=
  match Json.parse r.body.toList with
  | none => .error jsSyntaxErrMsg
  | some data =>
    match jsPropE data "choices" with
    | .error e => .error e
    | .ok choices? => .ok (optProp (optProp (optIdx choices? 0) "message") "content")

/-- `x || default` on a possibly-undefined value, coerced to the string a
non-string truthy result would become after the dispatcher's
`typeof result === "string" ? result : JSON.stringify(result)`. -/
def jsOrDefaultStr (v? : Option Json) (d : String) : String :=
  match v? with
  | some (.str s) => if s.isEmpty then d else s
  | some v => if jsTruthy v then jsonStringify v else d
  | none => d

/-- `executeWebSearch` (its search result text; the query only shapes the
outgoing request, which the response oracle already accounts for). -/
def executeWebSearch (r : HttpResp) : Except String String :=
  if !r.ok then .ok "I couldn't complete the web search at this time."
  else
    match fetchContentE r with
    | .error e => .error e
    | .ok content? => .ok (jsOrDefaultStr content? "No search results found.")

/-- `getWeatherData`: the location is interpolated into both degradation
strings. -/
def getWeatherData (location? : Option Json) (r : HttpResp) : Except String String :=
  if !r.ok then
    .ok ("I couldn't retrieve weather data for " ++ jsDisplay location? ++ " at this time.")
  else
    match fetchContentE r with
    | .error e => .error e
    | .ok content? =>
      .ok (jsOrDefaultStr content? ("Weather data unavailable for " ++ jsDisplay location? ++ "."))

/-- `content || ""` followed by `content.trim()`: a truthy non-string
content would make `.trim()` throw. -/
def strOrEmptyE : Option Json → Except String String
  | none => .ok ""
  | some (.str s) => .ok s
  | some v => if jsTruthy v then .error jsTypeErrMsg else .ok ""

/-- `getLocationData` (the `places`/`include_directions` arguments only
shape the prompt of the outgoing request, which the response oracle already
accounts for). -/
def getLocationData (r : HttpResp) : Except String Json :=
  if !r.ok then
    .ok (jobj [("message", .str "Couldn't find location data."), ("locations", jarr [])])
  else
    match fetchContentE r with
    | .error e => .error e
    | .ok content? =>
      match strOrEmptyE content? with
      | .error e => .error e
      | .ok content => .ok (parseLocationContent content)

/-! ## Vision preprocessing (`processMessagesForVision`) -/

/-- One element of a multimodal content array. -/
inductive MsgPart where
  | text (t : String)
  | imageUrl (url : String)
deriving DecidableEq

/-- A message body: plain string or multimodal content parts. -/
inductive MsgContent where
  | str (s : String)
  | parts (ps : List MsgPart)
deriving DecidableEq

/-- A chat message as sent to the gateway. -/
structure ChatMsg where
  role : String
  content : MsgContent
deriving DecidableEq

/-- Characters matched by `[A-Za-z0-9+/=]`. -/
def b64Char (c : Char) : Bool :=
  decide ('A' ≤ c ∧ c ≤ 'Z') || decide ('a' ≤ c ∧ c ≤ 'z') ||
  decide ('0' ≤ c ∧ c ≤ '9') || c = '+' || c = '/' || c = '='

/-- The image-subtype alternation, in the regex's order. -/
def imgAlts : List String := ["jpeg", "jpg", "png", "gif", "webp"]

/-- Match `/data:image\/(jpeg|jpg|png|gif|webp);base64,([A-Za-z0-9+\/=]+)/`
anchored at the start of `cs`; returns subtype, base64 data, rest.  Trying
the alternatives in order against the fixed continuation is exactly the
regex's backtracking. -/
def matchImageAt (cs : List Char) : Option (String × String × List Char) :=
  (imgAlts.filterMap (fun alt =>
    let pre := ("data:image/" ++ alt ++ ";base64,").toList
    if pre.isPrefixOf cs then
      let after := cs.drop pre.length
      let dat := after.takeWhile b64Char
      if dat = [] then none
      else some (alt, String.mk dat, after.drop dat.length)
    else none)).head?

/-- `matchAll` of the base64-image regex combined with
`replace(regex, '')`: left-to-right, non-overlapping scan returning the
matches and the text with the matches removed. -/
def scanImagesF : Nat → List Char → List (String × String) × List Char
  | 0, cs => ([], cs)
  | _ + 1, [] => ([], [])
  | f + 1, c :: cs =>
    match matchImageAt (c :: cs) with
    | some (alt, dat, rest) =>
      let p := scanImagesF f rest
      ((alt, dat) :: p.1, p.2)
    | none =>
      let p := scanImagesF f cs
      (p.1, c :: p.2)

/-- Scan a message for embedded base64 images. -/
def scanImages (cs : List Char) : List (String × String) × List Char :=
  scanImagesF cs.length cs

/-- Lazy `.*?` scan (dot does not match `'\n'`) up to a literal stop
pattern; returns the rest after the stop. -/
def findStopNoNl (stop : List Char) : List Char → Option (List Char)
  | [] => if stop.isPrefixOf [] then some [] else none
  | c :: cs =>
    if stop.isPrefixOf (c :: cs) then some ((c :: cs).drop stop.length)
    else if c = '\n' then none
    else findStopNoNl stop cs

/-- `replace(/START.*?STOP(\n?)/g, '')` with literal start/stop patterns. -/
def removeLazyF (start stop : List Char) (optNl : Bool) : Nat → List Char → List Char
  | 0, cs => cs
  | _ + 1, [] => []
  | f + 1, c :: cs =>
    if start.isPrefixOf (c :: cs) then
      match findStopNoNl stop ((c :: cs).drop start.length) with
      | some rest =>
        let rest' := if optNl then (match rest with | '\n' :: r => r | _ => rest) else rest
        removeLazyF start stop optNl f rest'
      | none => c :: removeLazyF start stop optNl f cs
    else c :: removeLazyF start stop optNl f cs

/-- Fuel wrapper for `removeLazyF`. -/
def removeLazy (start stop : String) (optNl : Bool) (cs : List Char) : List Char :=
  removeLazyF start.toList stop.toList optNl cs.length cs

/-- `replace(/LITERAL(\n?)/g, '')`. -/
def removeLitF (pat : List Char) (optNl : Bool) : Nat → List Char → List Char
  | 0, cs => cs
  | _ + 1, [] => []
  | f + 1, c :: cs =>
    if pat.isPrefixOf (c :: cs) then
      let rest := (c :: cs).drop pat.length
      let rest' := if optNl then (match rest with | '\n' :: r => r | _ => rest) else rest
      removeLitF pat optNl f rest'
    else c :: removeLitF pat optNl f cs

/-- Fuel wrapper for `removeLitF`. -/
def removeLit (pat : String) (optNl : Bool) (cs : List Char) : List Char :=
  removeLitF pat.toList optNl cs.length cs

/-- `replace(/\n{2,}/g, '\n')`. -/
def collapseNlF : Nat → List Char → List Char
  | 0, cs => cs
  | _ + 1, [] => []
  | f + 1, c :: cs =>
    if c = '\n' then
      match cs with
      | '\n' :: _ => '\n' :: collapseNlF f (cs.dropWhile (· = '\n'))
      | _ => '\n' :: collapseNlF f cs
    else c :: collapseNlF f cs

/-- Fuel wrapper for `collapseNlF`. -/
def collapseNl (cs : List Char) : List Char :=
  collapseNlF cs.length cs

/-- `image/${match[1] === 'jpg' ? 'jpeg' : match[1]}`. -/
def mimeOf (alt : String) : String := "image/" ++ (if alt = "jpg" then "jpeg" else alt)

/-- The text-content cleanup chain of `processMessagesForVision`. -/
def visionText (s : List Char) : String :=
  let t0 := jsTrim (scanImages s).2
  let t1 := jsTrim (removeLazy "[Image:" "]\nAnalyze this image:" false t0)
  let t2 := jsTrim (removeLit "[Attached files context]" true t1)
  let t3 := jsTrim (removeLit "[User message]" true t2)
  let t4 := jsTrim (removeLazy "[File Type:" "]" true t3)
  String.mk (jsTrim (collapseNl t4))

/-- Build the multimodal content array: all images first, then one text
part (with the fixed fallback prompt when the cleaned text is empty). -/
def visionParts (imgs : List (String × String)) (textContent : String) : List MsgPart :=
  (imgs.map (fun m => MsgPart.imageUrl ("data:" ++ mimeOf m.1 ++ ";base64," ++ m.2))) ++
  [MsgPart.text
    (if textContent.isEmpty then
      "Please analyze this image and describe what you see in detail."
    else textContent)]

/-- Per-message transform of `processMessagesForVision`. -/
def visionTransform (m : ChatMsg) : ChatMsg :=
  match m with
  | ⟨role, .str s⟩ =>
    if role = "user" then
      let scan := scanImages s.toList
      if scan.1 = [] then m
      else ⟨role, .parts (visionParts scan.1 (visionText s.toList))⟩
    else m
  | _ => m

/-- `processMessagesForVision`: rewrite user messages embedding base64
image data into multimodal form; everything else is passed through. -/
def processMessagesForVision (msgs : List ChatMsg) : List ChatMsg :=
  msgs.map visionTransform

/-! ## The tool round and the orchestrator (`serve`) -/

/-- A `{ role: "tool", tool_call_id, content }` message pushed by the tool
loop (`tool_call_id` is whatever `toolCall.id` held, possibly undefined). -/
structure ToolMsg where
  role : String
  tool_call_id : Option Json
  content : String
deriving DecidableEq

/-- The gateway responses a turn consumes: the initial non-streaming call,
one response per dispatched tool-internal call (in dispatch order), the
post-tool streaming call, and the no-tools streaming call. -/
structure ServeEnv where
  initial : HttpResp
  toolFetch : Nat → HttpResp
  final : HttpResp
  streamResp : HttpResp

/-- What the edge function replies with: a JSON document with a status, or
an event-stream body passed through. -/
inductive ServeResult where
  | json (status : Nat) (body : Json)
  | eventStream (chunks : List (List Char))
deriving DecidableEq

/-- Body of the HTTP 429 reply. -/
def rateLimitBody : Json := jobj [("error", .str "Rate limit exceeded. Please try again later.")]

/-- Body of the HTTP 402 reply. -/
def quotaBody : Json := jobj [("error", .str "Usage limit reached. Please add credits.")]

/-- `.length` of a JS value (arrays and strings only). -/
def jsLength : Json → Option Nat
  | .arr xs => some xs.toList.length
  | .str s => some s.length
  | _ => none

/-- `assistantMessage?.tool_calls && assistantMessage.tool_calls.length > 0`
(an undefined `.length` compares as false). -/
def toolRoundCond (v? : Option Json) : Bool :=
  match v? with
  | some v => jsTruthy v && (match jsLength v with | some n => decide (0 < n) | none => false)
  | none => false

/-- `initialData.choices?.[0]?.message` (the first access is plain, so a
`null` document throws). -/
def assistantMessageOf (data : Json) : Except String (Option Json) :=
  match jsPropE data "choices" with
  | .error e => .error e
  | .ok choices? => .ok (optProp (optIdx choices? 0) "message")

/-- The `for (const toolCall of assistantMessage.tool_calls)` loop.
Per call: read `toolCall.function.name`, `JSON.parse` the arguments (with
`|| "{}"` for a falsy field), dispatch the matching executor (unknown names
produce an empty result without consuming a gateway call), and push one
tool message with `tool_call_id: toolCall.id`.  Each `get_location`
assignment overwrites `mapData`.  Returns the tool messages in order, the
final `mapData`, and the next oracle index. -/
def processToolCalls (fetch : Nat → HttpResp) :
    List Json → Nat → Except String (List ToolMsg × Option Json × Nat)
  | [], k => .ok ([], none, k)
  | tc :: rest, k =>
    match jsPropE tc "function" with
    | .error e => .error e
    | .ok fn? =>
      match fn? with
      | none => .error jsTypeErrMsg
      | some .null => .error jsTypeErrMsg
      | some fnV =>
        match jsPropE fnV "name" with
        | .error e => .error e
        | .ok name? =>
          match jsPropE fnV "arguments" with
          | .error e => .error e
          | .ok rawArgs? =>
            let argsStr :=
              match rawArgs? with
              | some (.str s) => if s.isEmpty then "\x7b\x7d" else s
              | some v => if jsTruthy v then jsToStr v else "\x7b\x7d"
              | none => "\x7b\x7d"
            match Json.parse argsStr.toList with
            | none => .error jsSyntaxErrMsg
            | some args =>
              let dispatched : Except String (String × Option Json × Nat) :=
                if name? = some (Json.str "web_search") then
                  match jsPropE args "query" with
                  | .error e => .error e
                  | .ok _q =>
                    match executeWebSearch (fetch k) with
                    | .error e => .error e
                    | .ok res => .ok (res, none, k + 1)
                else if name? = some (Json.str "get_location") then
                  match jsPropE args "places", jsPropE args "include_directions" with
                  | .error e, _ => .error e
                  | _, .error e => .error e
                  | .ok _p, .ok _d =>
                    match getLocationData (fetch k) with
                    | .error e => .error e
                    | .ok payload => .ok (jsonStringify payload, some payload, k + 1)
                else if name? = some (Json.str "get_weather") then
                  match jsPropE args "location" with
                  | .error e => .error e
                  | .ok loc? =>
                    match getWeatherData loc? (fetch k) with
                    | .error e => .error e
                    | .ok res => .ok (res, none, k + 1)
                else .ok ("", none, k)
              match dispatched with
              | .error e => .error e
              | .ok (result, payload?, k') =>
                match jsPropE tc "id" with
                | .error e => .error e
                | .ok id? =>
                  match processToolCalls fetch rest k' with
                  | .error e => .error e
                  | .ok (msgs, mdRest, kf) =>
                    .ok (⟨"tool", id?, result⟩ :: msgs,
                         (match mdRest with | some v => some v | none => payload?), kf)

/-- The edge function body inside its `try`: classify the initial response,
detect tool intent, run the tool round, and produce either the map-payload
JSON result (draining the final stream) or a passed-through event stream.
The processed messages and the mode only shape outgoing requests, which the
response environment already accounts for. -/
def serveChatE (env : ServeEnv) (messages : List ChatMsg) (mode : String) :
    Except String ServeResult :=
  let _processedMessages := processMessagesForVision messages
  let _model := if mode = "images" then "google/gemini-2.5-flash" else "google/gemini-3-pro-preview"
  if !env.initial.ok then
    if env.initial.status = 429 then .ok (.json 429 rateLimitBody)
    else if env.initial.status = 402 then .ok (.json 402 quotaBody)
    else .ok (.json 500 (jobj [("error", .str ("AI service error: " ++ env.initial.body))]))
  else
    match Json.parse env.initial.body.toList with
    | none => .error jsSyntaxErrMsg
    | some initialData =>
      match assistantMessageOf initialData with
      | .error e => .error e
      | .ok assistantMessage? =>
        let toolCalls? := optProp assistantMessage? "tool_calls"
        if toolRoundCond toolCalls? then
          match toolCalls? with
          | some (.arr tcs) =>
            (match processToolCalls env.toolFetch tcs.toList 0 with
            | .error e => .error e
            | .ok (_toolResults, mapData?, _k) =>
              if !env.final.ok then
                .ok (.json 500 (jobj [("error", .str "AI service error")]))
              else
                match mapData? with
                | some md =>
                  if jsTruthy md then
                    .ok (.json 200 (jobj [("content", .str (drainChunks env.final.chunks)),
                                          ("mapData", md)]))
                  else .ok (.eventStream env.final.chunks)
                | none => .ok (.eventStream env.final.chunks))
          | _ =>
            -- `for..of` over a truthy non-array with positive `.length` is a
            -- string; its first element is a character whose `.function.name`
            -- access throws.
            .error jsTypeErrMsg
        else
          if !env.streamResp.ok then
            .ok (.json 500 (jobj [("error", .str ("AI service error: " ++ env.streamResp.body))]))
          else .ok (.eventStream env.streamResp.chunks)

/-- The edge function including its outer `catch`: a thrown error becomes a
500 reply carrying the error message. -/
def serveChat (env : ServeEnv) (messages : List ChatMsg) (mode : String) : ServeResult :=
  match serveChatE env messages mode with
  | .ok r => r
  | .error msg => .json 500 (jobj [("error", .str msg)])

/-! ## The client (`ChatInterface.tsx`): send, stream, persist -/

/-- A message in the client's local state. -/
structure UiMsg where
  id : Nat
  role : String
  content : String
deriving DecidableEq

/-- Client-side state: the local message list and the durable history the
Conversation Session has persisted via `onSaveMessage` (role, content). -/
structure ClientState where
  messages : List UiMsg
  persisted : List (String × String)
deriving DecidableEq

/-- The message of the error thrown on a non-ok response:
`error.error || "Failed to get response"` after `await response.json()`. -/
def clientErrMsg (resp : HttpResp) : String :=
  match Json.parse resp.body.toList with
  | some e =>
    (match optProp (some e) "error" with
    | some v => if jsTruthy v then jsToStr v else "Failed to get response"
    | none => "Failed to get response")
  | none => jsSyntaxErrMsg

/-- `streamChat`: throw on a non-ok response (before any assistant
placeholder exists), otherwise create the placeholder, run the decoder loop
over the chunks and leave the accumulated content in the local list.
Returns the updated local list and the outcome. -/
def streamChatModel (resp : HttpResp) (now : Nat) (msgs : List UiMsg) :
    List UiMsg × Except String String :=
  if !resp.ok then (msgs, .error (clientErrMsg resp))
  else
    let assistantContent := String.join (clientDeltas resp.chunks)
    (msgs ++ [⟨now, "assistant", assistantContent⟩], .ok assistantContent)

/-- `handleSend` (chat modes): append and persist the user message, run
`streamChat`; on success persist the assistant content when non-empty; on
an error drop a trailing *empty* assistant message and persist nothing
further. -/
def handleSend (st : ClientState) (userContent : String) (now : Nat) (resp : HttpResp) :
    ClientState :=
  let msgs1 := st.messages ++ [⟨now, "user", userContent⟩]
  let persisted1 := st.persisted ++ [("user", userContent)]
  match streamChatModel resp (now + 1) msgs1 with
  | (msgs2, .ok assistantContent) =>
    let persisted2 :=
      if !assistantContent.isEmpty then persisted1 ++ [("assistant", assistantContent)]
      else persisted1
    ⟨msgs2, persisted2⟩
  | (msgs2, .error _) =>
    let msgs3 :=
      match msgs2.getLast? with
      | some last => if last.role = "assistant" ∧ last.content = "" then msgs2.dropLast else msgs2
      | none => msgs2
    ⟨msgs3, persisted1⟩

/-! ## The map surface (`MapView.tsx`) -/

/-- `if (route && locations.length >= 2)` — the only treatment the map
surface gives a route: the polyline is drawn exactly under this guard; the
payload itself is neither rejected nor normalized. -/
def mapViewDrawsRoute (locations : List Json) (route? : Option Json) : Bool :=
  (match route? with | some v => jsTruthy v | none => false) && decide (2 ≤ locations.length)

/-! ## Line-level view of the client decoder (for the chunking analysis) -/

/-- The delta a line contributes, if any. -/
def deltaOf (l : List Char) : Option String :=
  match lineResClient l with
  | .delta s => some s
  | _ => none

/-- All deltas contributed by a list of lines, in order. -/
def deltasOf (ls : List (List Char)) : List String := ls.filterMap deltaOf

/-- Is this line the `[DONE]` sentinel (as the client sees it)? -/
def isDoneLine (l : List Char) : Bool := lineResClient l = .done

/-- No line in the list is the sentinel. -/
def noDoneB (ls : List (List Char)) : Bool := ls.all (fun l => !isDoneLine l)

/-- The line-level behaviour of one `clientStep`: process lines in order,
stopping after (and consuming) the first `[DONE]` line; returns the
unprocessed lines and the extended delta list. -/
def procLines : List (List Char) → List String → List (List Char) × List String
  | [], acc => ([], acc)
  | l :: ls, acc =>
    match lineResClient l with
    | .done => (ls, acc)
    | .delta s => procLines ls (acc ++ [s])
    | .skip => procLines ls acc

/-- Split a line list at the first `[DONE]` line (inclusive on the left);
if there is none, everything is on the left. -/
def splitAtDone : List (List Char) → List (List Char) × List (List Char)
  | [] => ([], [])
  | l :: ls =>
    if isDoneLine l then ([l], ls)
    else
      let p := splitAtDone ls
      (l :: p.1, p.2)

/-- Rebuild a buffer from complete lines and a trailing remainder. -/
def unsplit : List (List Char) → List Char → List Char
  | [], rem => rem
  | l :: ls, rem => l ++ '\n' :: unsplit ls rem

/-! ## Spec-side view of one tool round (for the tool-loop theorems) -/

/-- A (well-shaped) tool call as the gateway emits it: opaque id, function
name, and the arguments as a JSON-encoded string. -/
structure ToolSpec where
  id : String
  name : String
  args : String
deriving DecidableEq

/-- The wire form `{ id, function: { name, arguments } }` of a tool call. -/
def mkToolCallJson (s : ToolSpec) : Json :=
  jobj [("id", .str s.id),
        ("function", jobj [("name", .str s.name), ("arguments", .str s.args)])]

/-- The value `JSON.parse(toolCall.function.arguments || "{}")` produces for
a spec, if it parses. -/
def specArgsVal (s : ToolSpec) : Option Json :=
  Json.parse (if s.args.isEmpty then "\x7b\x7d" else s.args).toList

/-- A tool call whose arguments parse (and are not the literal `null`,
whose property accesses would throw). -/
def ToolSpec.wf (s : ToolSpec) : Prop :=
  ∃ v, specArgsVal s = some v ∧ v ≠ Json.null

/-- A gateway response on which every tool executor completes without
throwing (it may still be a degradation). -/
def fetchBenign (r : HttpResp) : Prop :=
  (∃ s, executeWebSearch r = .ok s) ∧
  (∃ j, getLocationData r = .ok j) ∧
  (∀ loc?, ∃ s, getWeatherData loc? r = .ok s)

/-- Every response the tool oracle can serve is benign. -/
def oracleBenign (fetch : Nat → HttpResp) : Prop := ∀ n, fetchBenign (fetch n)

/-- The payload a benign `get_location` dispatch yields. -/
def locPayloadAt (r : HttpResp) : Json :=
  match getLocationData r with
  | .ok p => p
  | .error _ => .null

/-- The `get_location` payloads of a round, in dispatch order, tracking the
oracle index (known tools consume one gateway call each, unknown names
none). -/
def locPayloadsSpec (fetch : Nat → HttpResp) : List ToolSpec → Nat → List Json
  | [], _ => []
  | s :: ss, k =>
    if s.name = "get_location" then locPayloadAt (fetch k) :: locPayloadsSpec fetch ss (k + 1)
    else if s.name = "web_search" ∨ s.name = "get_weather" then locPayloadsSpec fetch ss (k + 1)
    else locPayloadsSpec fetch ss k

/-- Number of `get_location` calls in a round. -/
def countLoc (specs : List ToolSpec) : Nat :=
  (specs.filter (fun s => s.name = "get_location")).length

/-- An initial-call document whose assistant message requests exactly the
given tool calls. -/
def initialDataFor (specs : List ToolSpec) : Json :=
  jobj [("choices",
    jarr [jobj [("message", jobj [("tool_calls", jarr (specs.map mkToolCallJson))])]])]

/-- Does `processMessagesForVision` rewrite this message?  (The source's
guard: a user message with string content embedding base64 image data.) -/
def visionRewrites (m : ChatMsg) : Bool :=
  match m with
  | ⟨role, .str s⟩ => decide (role = "user") && !(scanImages s.toList).1.isEmpty
  | _ => false

/-! ## Concrete instances used by the counterexamples and witnesses -/

/-- A failed gateway response. -/
def err500 : HttpResp := ⟨500, "", []⟩

/-- A well-formed SSE stream: one delta ("hi"), then the terminal frame. -/
def sseDoneChunk : List Char :=
  ("data: \x7b\"choices\":[\x7b\"delta\":\x7b\"content\":\"hi\"\x7d\x7d]\x7d\n\ndata: [DONE]\n\n").toList

/-- Front half of a delta frame, split mid-JSON (and mid-frame). -/
def frameFront : List Char := "data: \x7b\"choices\":[\x7b\"delta\":\x7b\"content\":\"h".toList

/-- Back half of the same delta frame. -/
def frameBack : List Char := "i\"\x7d\x7d]\x7d\n\n".toList

/-- Initial response with zero tool calls and zero (empty) content. -/
def c3Initial : HttpResp :=
  ⟨200, "\x7b\"choices\":[\x7b\"message\":\x7b\"content\":\"\"\x7d\x7d]\x7d", []⟩

/-- The assistant message of `c3Initial`: empty content, no tool calls. -/
def c3Msg : Json := jobj [("content", .str "")]

/-- The parsed document of `c3Initial`. -/
def c3Data : Json := jobj [("choices", jarr [jobj [("message", c3Msg)]])]

/-- Environment for the zero-content/zero-tool-call turn. -/
def c3Env : ServeEnv := ⟨c3Initial, fun _ => err500, err500, ⟨200, "", [sseDoneChunk]⟩⟩

/-- An initial response requesting a single `web_search` tool call. -/
def c5Initial : HttpResp :=
  ⟨200,
   "\x7b\"choices\":[\x7b\"message\":\x7b\"tool_calls\":[\x7b\"id\":\"t1\",\"function\":\x7b\"name\":\"web_search\",\"arguments\":\"\x7b\\\"query\\\":\\\"x\\\"\x7d\"\x7d\x7d]\x7d\x7d]\x7d",
   []⟩

/-- A successful web-search gateway response. -/
def searchOkResp : HttpResp :=
  ⟨200, "\x7b\"choices\":[\x7b\"message\":\x7b\"content\":\"res\"\x7d\x7d]\x7d", []⟩

/-- Environment whose post-tool final streaming call is rate limited
(HTTP 429 with a diagnostic body). -/
def c5Env : ServeEnv := ⟨c5Initial, fun _ => searchOkResp, ⟨429, "ratelimited", []⟩, err500⟩

/-- Environment whose initial call is rate limited. -/
def c5wEnv : ServeEnv := ⟨⟨429, "slow down", []⟩, fun _ => err500, err500, err500⟩

/-- An initial response requesting a single `get_location` tool call. -/
def c8Initial : HttpResp :=
  ⟨200,
   "\x7b\"choices\":[\x7b\"message\":\x7b\"tool_calls\":[\x7b\"id\":\"t1\",\"function\":\x7b\"name\":\"get_location\",\"arguments\":\"\x7b\\\"places\\\":[\\\"A\\\"]\x7d\"\x7d\x7d]\x7d\x7d]\x7d",
   []⟩

/-- A location gateway response whose payload has a `route` but only one
location. -/
def c8LocResp : HttpResp :=
  ⟨200,
   "\x7b\"choices\":[\x7b\"message\":\x7b\"content\":\"\x7b\\\"message\\\":\\\"m\\\",\\\"locations\\\":[\x7b\\\"name\\\":\\\"A\\\",\\\"lat\\\":1,\\\"lng\\\":2\x7d],\\\"route\\\":\x7b\\\"from\\\":\\\"A\\\",\\\"to\\\":\\\"B\\\"\x7d\x7d\"\x7d\x7d]\x7d",
   []⟩

/-- The single location of the degenerate payload. -/
def c8Loc1 : Json := jobj [("name", .str "A"), ("lat", .num "1"), ("lng", .num "2")]

/-- The degenerate payload: `route` present, one location. -/
def c8Payload : Json :=
  jobj [("message", .str "m"), ("locations", jarr [c8Loc1]),
        ("route", jobj [("from", .str "A"), ("to", .str "B")])]

/-- A successful final streaming response with narration "ok". -/
def finalOkResp : HttpResp :=
  ⟨200, "", [("data: \x7b\"choices\":[\x7b\"delta\":\x7b\"content\":\"ok\"\x7d\x7d]\x7d\n\ndata: [DONE]\n\n").toList]⟩

/-- Environment delivering the degenerate route payload. -/
def c8Env : ServeEnv := ⟨c8Initial, fun _ => c8LocResp, finalOkResp, err500⟩

/-- A location gateway response whose payload has a `route` and two
locations. -/
def c8wLocResp : HttpResp :=
  ⟨200,
   "\x7b\"choices\":[\x7b\"message\":\x7b\"content\":\"\x7b\\\"message\\\":\\\"m\\\",\\\"locations\\\":[\x7b\\\"name\\\":\\\"A\\\",\\\"lat\\\":1,\\\"lng\\\":2\x7d,\x7b\\\"name\\\":\\\"B\\\",\\\"lat\\\":3,\\\"lng\\\":4\x7d],\\\"route\\\":\x7b\\\"from\\\":\\\"A\\\",\\\"to\\\":\\\"B\\\"\x7d\x7d\"\x7d\x7d]\x7d",
   []⟩

/-- The two locations of the well-formed payload. -/
def c8wLocs : List Json :=
  [jobj [("name", .str "A"), ("lat", .num "1"), ("lng", .num "2")],
   jobj [("name", .str "B"), ("lat", .num "3"), ("lng", .num "4")]]

/-- The well-formed payload: `route` present, two locations. -/
def c8wPayload : Json :=
  jobj [("message", .str "m"), ("locations", jarr c8wLocs),
        ("route", jobj [("from", .str "A"), ("to", .str "B")])]

/-- Environment delivering the well-formed route payload. -/
def c8wEnv : ServeEnv := ⟨c8Initial, fun _ => c8wLocResp, finalOkResp, err500⟩

/-- A gateway response whose content is not JSON (after fence stripping). -/
def c4BadJsonResp : HttpResp :=
  ⟨200, "\x7b\"choices\":[\x7b\"message\":\x7b\"content\":\"oops\"\x7d\x7d]\x7d", []⟩

/-- A rate-limited backend response as the client sees it. -/
def c7Resp : HttpResp :=
  ⟨429, "\x7b\"error\":\"Rate limit exceeded. Please try again later.\"\x7d", []⟩

/-- A user message that embeds no image. -/
def c9Plain : ChatMsg := ⟨"user", .str "hello there"⟩

/-- A user message embedding a base64 PNG. -/
def c9Image : ChatMsg := ⟨"user", .str "look: data:image/png;base64,AAAA what is it?"⟩

/-- An assistant message (never rewritten). -/
def c9Assistant : ChatMsg := ⟨"assistant", .str "data:image/png;base64,AAAA"⟩

/-- The message list of the vision witness. -/
def c9Msgs : List ChatMsg := [c9Plain, c9Image, c9Assistant]

/-- A tool call whose arguments do not parse as JSON. -/
def c2BadSpec : ToolSpec := ⟨"t1", "web_search", "\x7boops"⟩

/-- Two `get_location` calls (with a weather call between them). -/
def c10Specs : List ToolSpec :=
  [⟨"t1", "get_location", "\x7b\"places\":[\"A\"]\x7d"⟩,
   ⟨"t2", "get_weather", "\x7b\"location\":\"Paris\"\x7d"⟩,
   ⟨"t3", "get_location", "\x7b\"places\":[\"B\"]\x7d"⟩]

/-- Location gateway responses: index 0 and 2 produce distinct payloads. -/
def c10Fetch : Nat → HttpResp
  | 0 => ⟨200, "\x7b\"choices\":[\x7b\"message\":\x7b\"content\":\"\x7b\\\"message\\\":\\\"first\\\",\\\"locations\\\":[]\x7d\"\x7d\x7d]\x7d", []⟩
  | 2 => ⟨200, "\x7b\"choices\":[\x7b\"message\":\x7b\"content\":\"\x7b\\\"message\\\":\\\"last\\\",\\\"locations\\\":[]\x7d\"\x7d\x7d]\x7d", []⟩
  | _ => ⟨200, "\x7b\"choices\":[\x7b\"message\":\x7b\"content\":\"res\"\x7d\x7d]\x7d", []⟩

/-- The payload of the last `get_location` call of `c10Specs`. -/
def c10LastPayload : Json := jobj [("message", .str "last"), ("locations", jarr [])]

/-- Environment for the two-`get_location` round. -/
def c10Env : ServeEnv :=
  ⟨⟨200, jsonStringify (initialDataFor c10Specs), []⟩, c10Fetch, finalOkResp, err500⟩

/-- The route object shared by the C8 payloads. -/
def c8Route : Json := jobj [("from", .str "A"), ("to", .str "B")]

/-- The backtick character (named, since it cannot be written as a
character literal here). -/
def btChar : Char := "`".toList.headD ' '

/-! # Theorems -/

/-- C3 (counterexample): the initial response of `c3Env` has zero tool
calls and zero (empty) content, yet the orchestrator proceeds to the
streaming phase and passes the stream through — there is no
`EmptyResponse` failure. -/
theorem c3_counterexample :
    Json.parse c3Initial.body.toList = some c3Data ∧
    assistantMessageOf c3Data = .ok (some c3Msg) ∧
    optProp (some c3Msg) "tool_calls" = none ∧
    optProp (some c3Msg) "content" = some (.str "") ∧
    serveChat c3Env [] "chat" = .eventStream [sseDoneChunk] :=
  ⟨rfl, rfl, rfl, rfl, rfl⟩

/-- C3 (amended): whenever the initial call succeeds and its assistant
message requests no tool round, the orchestrator re-issues the request as a
streaming call regardless of the content (empty included): the turn becomes
the passed-through event stream on success, or a gateway error carrying the
body on failure.  No `EmptyResponse` failure exists in the code. -/
theorem c3_zero_tool_calls_proceeds_to_streaming
    (env : ServeEnv) (msgs : List ChatMsg) (mode : String) (data : Json) (m? : Option Json)
    (hok : env.initial.ok = true)
    (hparse : Json.parse env.initial.body.toList = some data)
    (hmsg : assistantMessageOf data = .ok m?)
    (htc : toolRoundCond (optProp m? "tool_calls") = false) :
    serveChat env msgs mode =
      (if env.streamResp.ok then ServeResult.eventStream env.streamResp.chunks
       else .json 500 (jobj [("error", .str ("AI service error: " ++ env.streamResp.body))])) := by
  unfold serveChat serveChatE
  rw [hok, hparse]
  simp only [Bool.not_true, Bool.false_eq_true, if_false, ite_false]
  rw [hmsg]
  simp only [htc, Bool.false_eq_true, if_false, ite_false]
  cases h : env.streamResp.ok <;> simp [h]

/-- C3 (witness): the amended theorem applied to the concrete
zero-content, zero-tool-call environment. -/
theorem c3_witness :
    toolRoundCond (optProp (some c3Msg) "tool_calls") = false ∧
    serveChat c3Env [] "chat" =
      (if c3Env.streamResp.ok then ServeResult.eventStream c3Env.streamResp.chunks
       else .json 500 (jobj [("error", .str ("AI service error: " ++ c3Env.streamResp.body))])) :=
  ⟨rfl, c3_zero_tool_calls_proceeds_to_streaming c3Env [] "chat" c3Data (some c3Msg) rfl rfl rfl rfl⟩

/-- C4: a non-2xx gateway response inside a tool dispatch does not
propagate an error: `web_search` and `get_weather` return their fixed
apology strings, `get_location` returns the empty-locations fallback
payload; and a `get_location` response whose content fails JSON parsing
after code-fence stripping degrades to `{message: rawOutput, locations:
[]}` instead of throwing. -/
theorem c4_tool_failures_degrade (r r2 : HttpResp) (loc? : Option Json) (c : String)
    (hok : r.ok = false) (hok2 : r2.ok = true)
    (hc : fetchContentE r2 = .ok (some (.str c)))
    (hbad : Json.parse (cleanFence c.toList) = none) :
    executeWebSearch r = .ok "I couldn't complete the web search at this time." ∧
    getWeatherData loc? r =
      .ok ("I couldn't retrieve weather data for " ++ jsDisplay loc? ++ " at this time.") ∧
    getLocationData r =
      .ok (jobj [("message", .str "Couldn't find location data."), ("locations", jarr [])]) ∧
    getLocationData r2 = .ok (jobj [("message", .str c), ("locations", jarr [])]) := by
  refine ⟨?_, ?_, ?_, ?_⟩
  · simp [executeWebSearch, hok]
  · simp [getWeatherData, hok]
  · simp [getLocationData, hok]
  · simp only [getLocationData, hok2, Bool.not_true, Bool.false_eq_true, if_false, ite_false, hc]
    simp only [strOrEmptyE, parseLocationContent]
    rw [hbad]

/-- C4 (witness): the degradations evaluated at a failed response and at a
successful response whose content is not JSON. -/
theorem c4_witness :
    err500.ok = false ∧ c4BadJsonResp.ok = true ∧
    executeWebSearch err500 = .ok "I couldn't complete the web search at this time." ∧
    getLocationData c4BadJsonResp = .ok (jobj [("message", .str "oops"), ("locations", jarr [])]) := by
  have h := c4_tool_failures_degrade err500 c4BadJsonResp (some (.str "Paris")) "oops" rfl rfl rfl rfl
  exact ⟨rfl, rfl, h.1, h.2.2.2⟩

/-- C5 (counterexample): the post-tool final streaming call of `c5Env`
returns HTTP 429, yet the turn is surfaced as a generic 500
"AI service error" — not as RateLimited, and without the gateway's
response body ("ratelimited"). -/
theorem c5_counterexample :
    c5Env.final.status = 429 ∧
    serveChat c5Env [] "chat" = .json 500 (jobj [("error", .str "AI service error")]) :=
  ⟨rfl, rfl⟩

/-- C5 (amended): the 429 → RateLimited, 402 → QuotaExceeded and
other-non-2xx → body-carrying-GatewayError mapping holds for the initial
non-streaming call (only). -/
theorem c5_initial_call_error_mapping (env : ServeEnv) (msgs : List ChatMsg) (mode : String) :
    (env.initial.status = 429 → serveChat env msgs mode = .json 429 rateLimitBody) ∧
    (env.initial.status = 402 → serveChat env msgs mode = .json 402 quotaBody) ∧
    (env.initial.ok = false → env.initial.status ≠ 429 → env.initial.status ≠ 402 →
      serveChat env msgs mode =
        .json 500 (jobj [("error", .str ("AI service error: " ++ env.initial.body))])) := by
  refine ⟨?_, ?_, ?_⟩
  · intro h; simp [serveChat, serveChatE, HttpResp.ok, h]
  · intro h; simp [serveChat, serveChatE, HttpResp.ok, h]
  · intro hok h4 h2; simp [serveChat, serveChatE, hok, h4, h2]

/-- C5 (witness): a rate-limited initial call mapped to the 429 reply. -/
theorem c5_witness :
    c5wEnv.initial.status = 429 ∧ serveChat c5wEnv [] "chat" = .json 429 rateLimitBody :=
  ⟨rfl, (c5_initial_call_error_mapping c5wEnv [] "chat").1 rfl⟩

/-- C7: a turn whose backend call fails (any non-2xx, in particular the
429/402 replies) leaves the persisted history unchanged apart from the
user's own message, and the local message list likewise gains only the
user message — no partial assistant message survives. -/
theorem c7_failed_turn_leaves_history_unchanged
    (st : ClientState) (u : String) (now : Nat) (resp : HttpResp)
    (hok : resp.ok = false) :
    (handleSend st u now resp).persisted = st.persisted ++ [("user", u)] ∧
    (handleSend st u now resp).messages = st.messages ++ [⟨now, "user", u⟩] := by
  unfold handleSend streamChatModel
  rw [hok]
  simp [List.getLast?_concat]

/-- C7 (witness): the preservation applied to an empty session hitting the
rate-limit reply. -/
theorem c7_witness :
    c7Resp.ok = false ∧
    (handleSend ⟨[], []⟩ "hi" 0 c7Resp).persisted = [("user", "hi")] ∧
    (handleSend ⟨[], []⟩ "hi" 0 c7Resp).messages = [⟨0, "user", "hi"⟩] := by
  have h := c7_failed_turn_leaves_history_unchanged ⟨[], []⟩ "hi" 0 c7Resp rfl
  exact ⟨rfl, by simpa using h.1, by simpa using h.2⟩

set_option maxRecDepth 8000 in
/-- C8 (counterexample): the `get_location` path produces and delivers,
unrejected and unnormalized, a MapPayload whose `route` is present while
`locations` has a single entry. -/
theorem c8_counterexample :
    serveChat c8Env [] "chat" = .json 200 (jobj [("content", .str "ok"), ("mapData", c8Payload)]) ∧
    optProp (some c8Payload) "route" = some c8Route ∧
    jsTruthy c8Route = true ∧
    optProp (some c8Payload) "locations" = some (jarr [c8Loc1]) ∧
    [c8Loc1].length < 2 :=
  ⟨rfl, rfl, rfl, rfl, by decide⟩

/-- C8 (amended): no component validates the `route`-implies-two-locations
invariant; instead, for any delivered MapPayload the map surface draws the
route polyline only when the payload's locations list has at least two
entries (and the route is truthy) — a violating payload reaches the surface
unchanged but its route is simply not drawn. -/
theorem c8_route_only_drawn_with_two_locations
    (env : ServeEnv) (msgs : List ChatMsg) (mode : String) (c : String)
    (payload : Json) (locs : List Json)
    (_hres : serveChat env msgs mode = .json 200 (jobj [("content", .str c), ("mapData", payload)]))
    (_hlocs : optProp (some payload) "locations" = some (jarr locs))
    (hdraw : mapViewDrawsRoute locs (optProp (some payload) "route") = true) :
    2 ≤ locs.length := by
  unfold mapViewDrawsRoute at hdraw
  rw [Bool.and_eq_true] at hdraw
  simpa using hdraw.2

set_option maxRecDepth 8000 in
/-- C8 (witness): a two-location payload with a route is delivered and its
route is drawn; the amended theorem recovers the bound. -/
theorem c8_witness :
    mapViewDrawsRoute c8wLocs (optProp (some c8wPayload) "route") = true ∧
    2 ≤ c8wLocs.length := by
  have h := c8_route_only_drawn_with_two_locations c8wEnv [] "chat" "ok" c8wPayload c8wLocs rfl rfl rfl
  exact ⟨rfl, h⟩

/-- A message the vision guard does not select is passed through
unchanged. -/
theorem visionTransform_of_not_rewrites (m : ChatMsg) (h : visionRewrites m = false) :
    visionTransform m = m := by
  obtain ⟨role, content⟩ := m
  cases content with
  | parts ps => rfl
  | str s =>
    unfold visionRewrites at h
    unfold visionTransform
    rw [Bool.and_eq_false_iff] at h
    rcases h with h | h
    · have : ¬role = "user" := by simpa using h
      simp [this]
    · have hs : (scanImages s.data).1 = [] := by simpa using h
      simp [hs]

/-- A message the vision guard selects is rewritten to a multimodal
content-parts array with the same (user) role. -/
theorem visionTransform_of_rewrites (m : ChatMsg) (h : visionRewrites m = true) :
    ∃ s, m.role = "user" ∧ m.content = .str s ∧
      visionTransform m =
        ⟨"user", .parts (visionParts (scanImages s.toList).1 (visionText s.toList))⟩ := by
  obtain ⟨role, content⟩ := m
  cases content with
  | parts ps => simp [visionRewrites] at h
  | str s =>
    unfold visionRewrites at h
    rw [Bool.and_eq_true] at h
    have hrole : role = "user" := by simpa using h.1
    have hscan : ¬(scanImages s.data).1 = [] := by simpa using h.2
    refine ⟨s, hrole, rfl, ?_⟩
    unfold visionTransform
    simp [hrole, hscan]

/-- C9: message preprocessing rewrites exactly the user messages whose
string content embeds base64 image data — those become role-preserving
multimodal parts arrays — and passes every other message through unchanged,
so each outgoing message keeps one content representation. -/
theorem c9_vision_rewrites_only_user_image_messages (msgs : List ChatMsg) :
    (processMessagesForVision msgs).length = msgs.length ∧
    ∀ i (hi : i < msgs.length) (hi2 : i < (processMessagesForVision msgs).length),
      (visionRewrites (msgs.get ⟨i, hi⟩) = false →
        (processMessagesForVision msgs).get ⟨i, hi2⟩ = msgs.get ⟨i, hi⟩) ∧
      (visionRewrites (msgs.get ⟨i, hi⟩) = true →
        ((processMessagesForVision msgs).get ⟨i, hi2⟩).role = "user" ∧
        ∃ ps, ((processMessagesForVision msgs).get ⟨i, hi2⟩).content = .parts ps) := by
  constructor
  · simp [processMessagesForVision]
  · intro i hi hi2
    have hget : (processMessagesForVision msgs).get ⟨i, hi2⟩ =
        visionTransform (msgs.get ⟨i, hi⟩) := by
      simp [processMessagesForVision]
    constructor
    · intro hf
      rw [hget, visionTransform_of_not_rewrites _ hf]
    · intro ht
      obtain ⟨s, _hrole, _hcont, htr⟩ := visionTransform_of_rewrites _ ht
      rw [hget, htr]
      exact ⟨rfl, _, rfl⟩

/-- C9 (witness): in a three-message history, the plain user message and
the assistant message survive unchanged while the image-bearing user
message becomes a multimodal parts array. -/
theorem c9_witness :
    visionRewrites c9Plain = false ∧ visionRewrites c9Image = true ∧
    visionRewrites c9Assistant = false ∧
    (processMessagesForVision c9Msgs).get ⟨0, by decide⟩ = c9Plain ∧
    (processMessagesForVision c9Msgs).get ⟨2, by decide⟩ = c9Assistant ∧
    ((processMessagesForVision c9Msgs).get ⟨1, by decide⟩).role = "user" ∧
    (∃ ps, ((processMessagesForVision c9Msgs).get ⟨1, by decide⟩).content = .parts ps) := by
  have h := c9_vision_rewrites_only_user_image_messages c9Msgs
  exact ⟨rfl, rfl, rfl,
    (h.2 0 (by decide) (by decide)).1 rfl,
    (h.2 2 (by decide) (by decide)).1 rfl,
    ((h.2 1 (by decide) (by decide)).2 rfl).1,
    ((h.2 1 (by decide) (by decide)).2 rfl).2⟩

/-- The head surviving a `dropWhile` fails the predicate. -/
theorem dropWhile_head_false {α : Type} {p : α → Bool} {l : List α} {a : α} {t : List α}
    (h : l.dropWhile p = a :: t) : p a = false := by
  induction l with
  | nil => simp [List.dropWhile] at h
  | cons c cs ih =>
    rw [List.dropWhile_cons] at h
    by_cases hc : p c
    · rw [if_pos hc] at h; exact ih h
    · rw [if_neg hc] at h
      cases h
      simpa using hc

/-- `dropWhile` is the identity when the head already fails the test. -/
theorem dropWhile_eq_self_of_head {α : Type} {p : α → Bool} {l : List α}
    (h : ∀ a, l.head? = some a → p a = false) : l.dropWhile p = l := by
  cases l with
  | nil => rfl
  | cons c cs =>
    rw [List.dropWhile_cons, if_neg]
    simp [h c rfl]

/-- `trim()` is the identity on a list whose two ends are not whitespace. -/
theorem jsTrim_eq_self {l : List Char}
    (h1 : ∀ a, l.head? = some a → isJsWs a = false)
    (h2 : ∀ z, l.getLast? = some z → isJsWs z = false) : jsTrim l = l := by
  unfold jsTrim
  rw [dropWhile_eq_self_of_head h1]
  rw [dropWhile_eq_self_of_head (fun a ha => h2 a (by rwa [List.head?_reverse] at ha))]
  exact List.reverse_reverse l

/-- `trim()` drops a leading whitespace character. -/
theorem jsTrim_cons_ws {c : Char} (hc : isJsWs c = true) (l : List Char) :
    jsTrim (c :: l) = jsTrim l := by
  unfold jsTrim
  rw [List.dropWhile_cons, if_pos (by simp [hc])]

/-- `trim()` drops a trailing whitespace character. -/
theorem jsTrim_append_ws {c : Char} (hc : isJsWs c = true) (l : List Char) :
    jsTrim (l ++ [c]) = jsTrim l := by
  unfold jsTrim
  rw [List.dropWhile_append]
  by_cases h : (l.dropWhile isJsWs).isEmpty
  · rw [if_pos h]
    have h0 : l.dropWhile isJsWs = [] := by simpa using h
    rw [h0]
    simp [List.dropWhile_cons, hc, List.dropWhile]
  · rw [if_neg h]
    rw [List.reverse_append]
    simp only [List.reverse_singleton, List.singleton_append]
    rw [List.dropWhile_cons, if_pos (by simp [hc])]

/-- `trim()` is idempotent. -/
theorem jsTrim_idem (l : List Char) : jsTrim (jsTrim l) = jsTrim l := by
  apply jsTrim_eq_self
  · intro a ha
    have hpre : jsTrim l <+: l.dropWhile isJsWs := by
      have hsfx : ((l.dropWhile isJsWs).reverse.dropWhile isJsWs) <:+
          (l.dropWhile isJsWs).reverse := List.dropWhile_suffix _
      have := List.reverse_prefix.mpr hsfx
      simpa [jsTrim] using this
    obtain ⟨t, ht⟩ := hpre
    have hh : (l.dropWhile isJsWs).head? = some a := by
      rw [← ht]
      cases hj : jsTrim l with
      | nil => rw [hj] at ha; simp at ha
      | cons x xs =>
        rw [hj] at ha
        simp at ha
        simp [hj, ha]
    cases hd : l.dropWhile isJsWs with
    | nil => rw [hd] at hh; simp at hh
    | cons x xs =>
      rw [hd] at hh
      simp at hh
      subst hh
      exact dropWhile_head_false hd
  · intro z hz
    have hz' : ((l.dropWhile isJsWs).reverse.dropWhile isJsWs).head? = some z := by
      rw [← List.getLast?_reverse]
      simpa [jsTrim] using hz
    cases hd : (l.dropWhile isJsWs).reverse.dropWhile isJsWs with
    | nil => rw [hd] at hz'; simp at hz'
    | cons x xs =>
      rw [hd] at hz'
      simp at hz'
      subst hz'
      exact dropWhile_head_false hd

/-- A list is a prefix, in the executable sense, of itself plus anything. -/
theorem isPrefixOf_append_self (l t : List Char) : l.isPrefixOf (l ++ t) = true :=
  List.isPrefixOf_iff_prefix.mpr (List.prefix_append l t)

/-- A list is a suffix, in the executable sense, of anything plus itself. -/
theorem isSuffixOf_append_self (l t : List Char) : l.isSuffixOf (t ++ l) = true :=
  List.isSuffixOf_iff_suffix.mpr (List.suffix_append t l)

/-- If a compound pattern is an executable prefix, so is its first part. -/
theorem isPrefixOf_of_append {a b x : List Char} (h : (a ++ b).isPrefixOf x = true) :
    a.isPrefixOf x = true := by
  rw [List.isPrefixOf_iff_prefix] at h ⊢
  exact (List.prefix_append a b).trans h

/-- `trim()` is the identity on a list with non-whitespace first and last
characters. -/
theorem jsTrim_of_ends {a z : Char} (ha : isJsWs a = false) (hz : isJsWs z = false)
    (xs : List Char) : jsTrim (a :: (xs ++ [z])) = a :: (xs ++ [z]) := by
  apply jsTrim_eq_self
  · intro b hb
    simp at hb
    rw [hb] at ha
    exact ha
  · intro z' hz'
    rw [show a :: (xs ++ [z]) = (a :: xs) ++ [z] from rfl, List.getLast?_concat] at hz'
    cases hz'
    exact hz

/-- Stripping a ```` ```json ```` fence recovers the trimmed payload. -/
theorem cleanFence_json_fenced (P : String) :
    cleanFence ("```json\n" ++ P ++ "\n```").toList = jsTrim P.toList := by
  have hdata : ("```json\n" ++ P ++ "\n```").toList =
      bqJson ++ '\n' :: (P.toList ++ ('\n' :: bq3)) := by
    simp [String.toList, String.data_append, bqJson, bq3]
  have hshape : bqJson ++ '\n' :: (P.toList ++ ('\n' :: bq3)) =
      btChar :: (("``json\n".toList ++ (P.toList ++ "\n``".toList)) ++ [btChar]) := by
    show btChar :: ("``json\n".toList ++ (P.toList ++ ("\n``".toList ++ [btChar]))) = _
    simp [List.append_assoc]
  have htrim : jsTrim (bqJson ++ '\n' :: (P.toList ++ ('\n' :: bq3))) =
      bqJson ++ '\n' :: (P.toList ++ ('\n' :: bq3)) := by
    rw [hshape]
    exact jsTrim_of_ends (show isJsWs btChar = false from rfl)
      (show isJsWs btChar = false from rfl) _
  have hdrop : (bqJson ++ '\n' :: (P.toList ++ ('\n' :: bq3))).drop 7 =
      '\n' :: (P.toList ++ ('\n' :: bq3)) := by
    rw [show (7 : Nat) = bqJson.length from rfl, List.drop_left]
  have hshape2 : ('\n' :: (P.toList ++ ('\n' :: bq3))) =
      ('\n' :: (P.toList ++ ['\n'])) ++ bq3 := by
    show ('\n' :: (P.toList ++ (['\n'] ++ bq3))) = _
    simp [List.append_assoc]
  have hsufEq : bq3.isSuffixOf ('\n' :: (P.toList ++ ('\n' :: bq3))) = true := by
    rw [hshape2]
    exact isSuffixOf_append_self _ _
  have htake : ('\n' :: (P.toList ++ ('\n' :: bq3))).take
      (('\n' :: (P.toList ++ ('\n' :: bq3))).length - 3) = '\n' :: (P.toList ++ ['\n']) := by
    rw [hshape2, List.length_append, show bq3.length = 3 from rfl, Nat.add_sub_cancel,
      List.take_left]
  rw [hdata]
  simp only [cleanFence, htrim, isPrefixOf_append_self, if_true, ite_true, hdrop, hsufEq, htake]
  rw [jsTrim_cons_ws (show isJsWs '\n' = true from rfl),
    jsTrim_append_ws (show isJsWs '\n' = true from rfl)]

/-- Stripping a plain ```` ``` ```` fence recovers the trimmed payload. -/
theorem cleanFence_plain_fenced (P : String) :
    cleanFence ("```\n" ++ P ++ "\n```").toList = jsTrim P.toList := by
  have hdata : ("```\n" ++ P ++ "\n```").toList =
      bq3 ++ '\n' :: (P.toList ++ ('\n' :: bq3)) := by
    simp [String.toList, String.data_append, bq3]
  have hshape : bq3 ++ '\n' :: (P.toList ++ ('\n' :: bq3)) =
      btChar :: (("``\n".toList ++ (P.toList ++ "\n``".toList)) ++ [btChar]) := by
    show btChar :: ("``\n".toList ++ (P.toList ++ ("\n``".toList ++ [btChar]))) = _
    simp [List.append_assoc]
  have htrim : jsTrim (bq3 ++ '\n' :: (P.toList ++ ('\n' :: bq3))) =
      bq3 ++ '\n' :: (P.toList ++ ('\n' :: bq3)) := by
    rw [hshape]
    exact jsTrim_of_ends (show isJsWs btChar = false from rfl)
      (show isJsWs btChar = false from rfl) _
  have hnoJson : bqJson.isPrefixOf (bq3 ++ '\n' :: (P.toList ++ ('\n' :: bq3))) = false := rfl
  have hdrop : (bq3 ++ '\n' :: (P.toList ++ ('\n' :: bq3))).drop 3 =
      '\n' :: (P.toList ++ ('\n' :: bq3)) := by
    rw [show (3 : Nat) = bq3.length from rfl, List.drop_left]
  have hshape2 : ('\n' :: (P.toList ++ ('\n' :: bq3))) =
      ('\n' :: (P.toList ++ ['\n'])) ++ bq3 := by
    show ('\n' :: (P.toList ++ (['\n'] ++ bq3))) = _
    simp [List.append_assoc]
  have hsufEq : bq3.isSuffixOf ('\n' :: (P.toList ++ ('\n' :: bq3))) = true := by
    rw [hshape2]
    exact isSuffixOf_append_self _ _
  have htake : ('\n' :: (P.toList ++ ('\n' :: bq3))).take
      (('\n' :: (P.toList ++ ('\n' :: bq3))).length - 3) = '\n' :: (P.toList ++ ['\n']) := by
    rw [hshape2, List.length_append, show bq3.length = 3 from rfl, Nat.add_sub_cancel,
      List.take_left]
  rw [hdata]
  simp only [cleanFence, htrim, hnoJson, Bool.false_eq_true, if_false, ite_false,
    isPrefixOf_append_self, if_true, ite_true, hdrop, hsufEq, htake]
  rw [jsTrim_cons_ws (show isJsWs '\n' = true from rfl),
    jsTrim_append_ws (show isJsWs '\n' = true from rfl)]

/-- An unfenced payload comes out of the stripping as its trim. -/
theorem cleanFence_unfenced (P : String)
    (hpre : bq3.isPrefixOf (jsTrim P.toList) = false)
    (hsuf : bq3.isSuffixOf (jsTrim P.toList) = false) :
    cleanFence P.toList = jsTrim P.toList := by
  have hpreJ : bqJson.isPrefixOf (jsTrim P.toList) = false := by
    cases h : bqJson.isPrefixOf (jsTrim P.toList) with
    | false => rfl
    | true =>
      have h2 := isPrefixOf_of_append (a := bq3) (b := "json".toList)
        (by rw [show bq3 ++ "json".toList = bqJson from rfl]; exact h)
      rw [h2] at hpre
      cases hpre
  simp only [cleanFence, hpreJ, hpre, hsuf, Bool.false_eq_true, if_false, ite_false]
  exact jsTrim_idem _

/-- C6: for a payload that parses as JSON (and is not itself fence-framed),
`get_location` parsing is idempotent with respect to code-fence wrapping —
the ```` ```json ```` and ```` ``` ```` fenced forms parse to exactly the
payload's own parse. -/
theorem c6_fence_strip_idempotent (P : String)
    (hpre : bq3.isPrefixOf (jsTrim P.toList) = false)
    (hsuf : bq3.isSuffixOf (jsTrim P.toList) = false)
    (hparse : (Json.parse (jsTrim P.toList)).isSome = true) :
    parseLocationContent ("```json\n" ++ P ++ "\n```") = parseLocationContent P ∧
    parseLocationContent ("```\n" ++ P ++ "\n```") = parseLocationContent P := by
  obtain ⟨v, hv⟩ := Option.isSome_iff_exists.mp hparse
  unfold parseLocationContent
  rw [cleanFence_json_fenced, cleanFence_plain_fenced, cleanFence_unfenced P hpre hsuf, hv]
  exact ⟨rfl, rfl⟩

/-- C6 (witness): the idempotence evaluated at a concrete JSON object. -/
theorem c6_witness :
    (Json.parse (jsTrim "\x7b\"a\":1\x7d".toList)).isSome = true ∧
    parseLocationContent ("```json\n" ++ "\x7b\"a\":1\x7d" ++ "\n```") =
      parseLocationContent "\x7b\"a\":1\x7d" ∧
    parseLocationContent ("```\n" ++ "\x7b\"a\":1\x7d" ++ "\n```") =
      parseLocationContent "\x7b\"a\":1\x7d" := by
  have h := c6_fence_strip_idempotent "\x7b\"a\":1\x7d" (by decide) (by decide) (by decide)
  exact ⟨by decide, h.1, h.2⟩

/-- Collapsing the identity rebuild of an optional value. -/
theorem opt_match_id (o : Option Json) :
    (match o with | some v => some v | none => none) = o := by cases o <;> rfl

/-- Property access on a non-`null` value never throws. -/
theorem jsPropE_ne_null (v : Json) (k : String) (h : v ≠ Json.null) :
    ∃ o, jsPropE v k = .ok o := by
  cases v <;> first | (exact absurd rfl h) | exact ⟨_, rfl⟩

/-- `getLast?` of a cons, phrased as the tail's last with the head as
fallback. -/
theorem getLast?_cons_match {α : Type} (a : α) (l : List α) :
    (a :: l).getLast? = (match l.getLast? with | some v => some v | none => some a) := by
  induction l generalizing a with
  | nil => rfl
  | cons b t ih =>
    rw [List.getLast?_cons_cons, ih b]
    cases h : t.getLast? <;> simp [ih]

/-- One step of the tool loop on a `web_search` call. -/
theorem processToolCalls_cons_web (fetch : Nat → HttpResp) (s : ToolSpec) (rest : List Json)
    (k : Nat) (v : Json) (hv : specArgsVal s = some v) (hvn : v ≠ Json.null)
    (hname : s.name = "web_search") (res : String)
    (hres : executeWebSearch (fetch k) = .ok res) :
    processToolCalls fetch (mkToolCallJson s :: rest) k =
      (match processToolCalls fetch rest (k + 1) with
       | .error e => Except.error e
       | .ok (msgs, mdRest, kf) =>
         .ok (⟨"tool", some (.str s.id), res⟩ :: msgs, mdRest, kf)) := by
  obtain ⟨q, hq⟩ := jsPropE_ne_null v "query" hvn
  have hv' : Json.parse (if s.args.isEmpty then "\x7b\x7d" else s.args).toList = some v := by
    simpa [specArgsVal] using hv
  simp only [processToolCalls]
  rw [show jsPropE (mkToolCallJson s) "function" = Except.ok (some (Json.obj
      (JsonFields.cons "name" (Json.str s.name)
        (JsonFields.cons "arguments" (Json.str s.args) JsonFields.nil)))) from rfl]
  simp only []
  rw [show jsPropE (Json.obj (JsonFields.cons "name" (Json.str s.name)
      (JsonFields.cons "arguments" (Json.str s.args) JsonFields.nil))) "name" =
      Except.ok (some (Json.str s.name)) from rfl]
  simp only []
  rw [show jsPropE (Json.obj (JsonFields.cons "name" (Json.str s.name)
      (JsonFields.cons "arguments" (Json.str s.args) JsonFields.nil))) "arguments" =
      Except.ok (some (Json.str s.args)) from rfl]
  simp only []
  rw [hv']
  simp only []
  rw [hname, if_pos (rfl : some (Json.str "web_search") = some (Json.str "web_search"))]
  rw [hq]
  simp only []
  rw [hres]
  simp only []
  rw [show jsPropE (mkToolCallJson s) "id" = Except.ok (some (Json.str s.id)) from rfl]
  simp only []
  rcases processToolCalls fetch rest (k + 1) with e | ⟨msgs, mdRest, kf⟩
  · rfl
  · cases mdRest <;> rfl

/-- One step of the tool loop on a `get_location` call. -/
theorem processToolCalls_cons_loc (fetch : Nat → HttpResp) (s : ToolSpec) (rest : List Json)
    (k : Nat) (v : Json) (hv : specArgsVal s = some v) (hvn : v ≠ Json.null)
    (hname : s.name = "get_location") (payload : Json)
    (hp : getLocationData (fetch k) = .ok payload) :
    processToolCalls fetch (mkToolCallJson s :: rest) k =
      (match processToolCalls fetch rest (k + 1) with
       | .error e => Except.error e
       | .ok (msgs, mdRest, kf) =>
         .ok (⟨"tool", some (.str s.id), jsonStringify payload⟩ :: msgs,
              (match mdRest with | some w => some w | none => some payload), kf)) := by
  obtain ⟨p1, hp1⟩ := jsPropE_ne_null v "places" hvn
  obtain ⟨p2, hp2⟩ := jsPropE_ne_null v "include_directions" hvn
  have hv' : Json.parse (if s.args.isEmpty then "\x7b\x7d" else s.args).toList = some v := by
    simpa [specArgsVal] using hv
  have hne : ¬(some (Json.str s.name) = some (Json.str "web_search")) := by
    simp [hname]
  simp only [processToolCalls]
  rw [show jsPropE (mkToolCallJson s) "function" = Except.ok (some (Json.obj
      (JsonFields.cons "name" (Json.str s.name)
        (JsonFields.cons "arguments" (Json.str s.args) JsonFields.nil)))) from rfl]
  simp only []
  rw [show jsPropE (Json.obj (JsonFields.cons "name" (Json.str s.name)
      (JsonFields.cons "arguments" (Json.str s.args) JsonFields.nil))) "name" =
      Except.ok (some (Json.str s.name)) from rfl]
  simp only []
  rw [show jsPropE (Json.obj (JsonFields.cons "name" (Json.str s.name)
      (JsonFields.cons "arguments" (Json.str s.args) JsonFields.nil))) "arguments" =
      Except.ok (some (Json.str s.args)) from rfl]
  simp only []
  rw [hv']
  simp only []
  rw [if_neg hne]
  rw [hname, if_pos (rfl : some (Json.str "get_location") = some (Json.str "get_location"))]
  rw [hp1, hp2]
  simp only []
  rw [hp]
  simp only []
  rw [show jsPropE (mkToolCallJson s) "id" = Except.ok (some (Json.str s.id)) from rfl]

/-- One step of the tool loop on a `get_weather` call. -/
theorem processToolCalls_cons_weather (fetch : Nat → HttpResp) (s : ToolSpec) (rest : List Json)
    (k : Nat) (v : Json) (hv : specArgsVal s = some v) (hvn : v ≠ Json.null)
    (hname : s.name = "get_weather")
    (hben : ∀ loc?, ∃ res, getWeatherData loc? (fetch k) = .ok res) :
    ∃ res, processToolCalls fetch (mkToolCallJson s :: rest) k =
      (match processToolCalls fetch rest (k + 1) with
       | .error e => Except.error e
       | .ok (msgs, mdRest, kf) =>
         .ok (⟨"tool", some (.str s.id), res⟩ :: msgs, mdRest, kf)) := by
  obtain ⟨loc?, hloc⟩ := jsPropE_ne_null v "location" hvn
  obtain ⟨res, hres⟩ := hben loc?
  refine ⟨res, ?_⟩
  have hv' : Json.parse (if s.args.isEmpty then "\x7b\x7d" else s.args).toList = some v := by
    simpa [specArgsVal] using hv
  have hne1 : ¬(some (Json.str s.name) = some (Json.str "web_search")) := by
    simp [hname]
  have hne2 : ¬(some (Json.str s.name) = some (Json.str "get_location")) := by
    simp [hname]
  simp only [processToolCalls]
  rw [show jsPropE (mkToolCallJson s) "function" = Except.ok (some (Json.obj
      (JsonFields.cons "name" (Json.str s.name)
        (JsonFields.cons "arguments" (Json.str s.args) JsonFields.nil)))) from rfl]
  simp only []
  rw [show jsPropE (Json.obj (JsonFields.cons "name" (Json.str s.name)
      (JsonFields.cons "arguments" (Json.str s.args) JsonFields.nil))) "name" =
      Except.ok (some (Json.str s.name)) from rfl]
  simp only []
  rw [show jsPropE (Json.obj (JsonFields.cons "name" (Json.str s.name)
      (JsonFields.cons "arguments" (Json.str s.args) JsonFields.nil))) "arguments" =
      Except.ok (some (Json.str s.args)) from rfl]
  simp only []
  rw [hv']
  simp only []
  rw [if_neg hne1, if_neg hne2]
  rw [hname, if_pos (rfl : some (Json.str "get_weather") = some (Json.str "get_weather"))]
  rw [hloc]
  simp only []
  rw [hres]
  simp only []
  rw [show jsPropE (mkToolCallJson s) "id" = Except.ok (some (Json.str s.id)) from rfl]
  simp only []
  rcases processToolCalls fetch rest (k + 1) with e | ⟨msgs, mdRest, kf⟩
  · rfl
  · cases mdRest <;> rfl

/-- One step of the tool loop on an unknown tool name: empty result, no
gateway call consumed. -/
theorem processToolCalls_cons_unknown (fetch : Nat → HttpResp) (s : ToolSpec)
    (rest : List Json) (k : Nat) (v : Json) (hv : specArgsVal s = some v)
    (hn1 : s.name ≠ "web_search") (hn2 : s.name ≠ "get_location")
    (hn3 : s.name ≠ "get_weather") :
    processToolCalls fetch (mkToolCallJson s :: rest) k =
      (match processToolCalls fetch rest k with
       | .error e => Except.error e
       | .ok (msgs, mdRest, kf) =>
         .ok (⟨"tool", some (.str s.id), ""⟩ :: msgs, mdRest, kf)) := by
  have hv' : Json.parse (if s.args.isEmpty then "\x7b\x7d" else s.args).toList = some v := by
    simpa [specArgsVal] using hv
  have hne1 : ¬(some (Json.str s.name) = some (Json.str "web_search")) := by simp [hn1]
  have hne2 : ¬(some (Json.str s.name) = some (Json.str "get_location")) := by simp [hn2]
  have hne3 : ¬(some (Json.str s.name) = some (Json.str "get_weather")) := by simp [hn3]
  simp only [processToolCalls]
  rw [show jsPropE (mkToolCallJson s) "function" = Except.ok (some (Json.obj
      (JsonFields.cons "name" (Json.str s.name)
        (JsonFields.cons "arguments" (Json.str s.args) JsonFields.nil)))) from rfl]
  simp only []
  rw [show jsPropE (Json.obj (JsonFields.cons "name" (Json.str s.name)
      (JsonFields.cons "arguments" (Json.str s.args) JsonFields.nil))) "name" =
      Except.ok (some (Json.str s.name)) from rfl]
  simp only []
  rw [show jsPropE (Json.obj (JsonFields.cons "name" (Json.str s.name)
      (JsonFields.cons "arguments" (Json.str s.args) JsonFields.nil))) "arguments" =
      Except.ok (some (Json.str s.args)) from rfl]
  simp only []
  rw [hv']
  simp only []
  rw [if_neg hne1, if_neg hne2, if_neg hne3]
  simp only []
  rw [show jsPropE (mkToolCallJson s) "id" = Except.ok (some (Json.str s.id)) from rfl]
  simp only []
  rcases processToolCalls fetch rest k with e | ⟨msgs, mdRest, kf⟩
  · rfl
  · cases mdRest <;> rfl

/-- Functional characterisation of one tool round on well-shaped calls
with benign gateway responses: the loop returns, in gateway order, one
tool message per call whose `tool_call_id` is the call's id; every
`get_location` call's serialized payload is its own message's content; and
the final `mapData` is the last `get_location` payload (if any). -/
theorem processToolCalls_spec (fetch : Nat → HttpResp) (hben : oracleBenign fetch)
    (specs : List ToolSpec) :
    ∀ k : Nat, (∀ s ∈ specs, s.wf) →
    ∃ results k',
      processToolCalls fetch (specs.map mkToolCallJson) k =
        .ok (results, (locPayloadsSpec fetch specs k).getLast?, k') ∧
      results.map (fun m => m.tool_call_id) = specs.map (fun s => some (Json.str s.id)) ∧
      results.length = specs.length ∧
      (specs.zip results).filterMap
        (fun p => if p.1.name = "get_location" then some p.2.content else none) =
        (locPayloadsSpec fetch specs k).map jsonStringify := by
  induction specs with
  | nil => exact fun k _ => ⟨[], k, rfl, rfl, rfl, rfl⟩
  | cons s ss ih =>
    intro k hwf
    obtain ⟨v, hv, hvn⟩ := hwf s (List.mem_cons_self s ss)
    have hwf' : ∀ t ∈ ss, t.wf := fun t ht => hwf t (List.mem_cons_of_mem s ht)
    obtain ⟨results', k', hrec, hmap, hlen, hzip⟩ := ih (k + 1) hwf'
    obtain ⟨results0, k0, hrec0, hmap0, hlen0, hzip0⟩ := ih k hwf'
    by_cases h1 : s.name = "web_search"
    · obtain ⟨res, hres⟩ := (hben k).1
      refine ⟨⟨"tool", some (.str s.id), res⟩ :: results', k', ?_, ?_, ?_, ?_⟩
      · rw [List.map_cons,
          processToolCalls_cons_web fetch s (ss.map mkToolCallJson) k v hv hvn h1 res hres,
          hrec]
        simp only []
        rw [show locPayloadsSpec fetch (s :: ss) k = locPayloadsSpec fetch ss (k + 1) from
          by simp [locPayloadsSpec, h1]]
      · simp [hmap]
      · simp [hlen]
      · rw [List.zip_cons_cons, List.filterMap_cons,
          show locPayloadsSpec fetch (s :: ss) k = locPayloadsSpec fetch ss (k + 1) from
            by simp [locPayloadsSpec, h1]]
        simp only [h1]
        rw [if_neg (by simp)]
        exact hzip
    · by_cases h2 : s.name = "get_location"
      · obtain ⟨payload, hp⟩ := (hben k).2.1
        have hloc : locPayloadsSpec fetch (s :: ss) k =
            payload :: locPayloadsSpec fetch ss (k + 1) := by
          simp [locPayloadsSpec, h2, locPayloadAt, hp]
        refine ⟨⟨"tool", some (.str s.id), jsonStringify payload⟩ :: results', k', ?_, ?_, ?_, ?_⟩
        · rw [List.map_cons,
            processToolCalls_cons_loc fetch s (ss.map mkToolCallJson) k v hv hvn h2 payload hp,
            hrec]
          simp only []
          rw [hloc, getLast?_cons_match]
          cases (locPayloadsSpec fetch ss (k + 1)).getLast? <;> rfl
        · simp [hmap]
        · simp [hlen]
        · rw [List.zip_cons_cons, List.filterMap_cons, hloc]
          simp [h2, hzip]
      · by_cases h3 : s.name = "get_weather"
        · obtain ⟨res, hstep⟩ := processToolCalls_cons_weather fetch s (ss.map mkToolCallJson)
            k v hv hvn h3 (fun loc? => (hben k).2.2 loc?)
          refine ⟨⟨"tool", some (.str s.id), res⟩ :: results', k', ?_, ?_, ?_, ?_⟩
          · rw [List.map_cons, hstep, hrec]
            simp only []
            rw [show locPayloadsSpec fetch (s :: ss) k = locPayloadsSpec fetch ss (k + 1) from
              by simp [locPayloadsSpec, h1, h2, h3]]
          · simp [hmap]
          · simp [hlen]
          · rw [List.zip_cons_cons, List.filterMap_cons,
              show locPayloadsSpec fetch (s :: ss) k = locPayloadsSpec fetch ss (k + 1) from
                by simp [locPayloadsSpec, h1, h2, h3]]
            rw [if_neg (by simp [h2])]
            exact hzip
        · refine ⟨⟨"tool", some (.str s.id), ""⟩ :: results0, k0, ?_, ?_, ?_, ?_⟩
          · rw [List.map_cons,
              processToolCalls_cons_unknown fetch s (ss.map mkToolCallJson) k v hv h1 h2 h3,
              hrec0]
            simp only []
            rw [show locPayloadsSpec fetch (s :: ss) k = locPayloadsSpec fetch ss k from
              by simp [locPayloadsSpec, h1, h2, h3]]
          · simp [hmap0]
          · simp [hlen0]
          · rw [List.zip_cons_cons, List.filterMap_cons,
              show locPayloadsSpec fetch (s :: ss) k = locPayloadsSpec fetch ss k from
                by simp [locPayloadsSpec, h1, h2, h3]]
            rw [if_neg (by simp [h2])]
            exact hzip0

/-- Round-tripping a list through `JsonList`. -/
theorem JsonList.toList_ofList (l : List Json) : (JsonList.ofList l).toList = l := by
  induction l with
  | nil => rfl
  | cons x xs ih => simp [JsonList.ofList, JsonList.toList, ih]

/-- A nonempty parsed `tool_calls` array enters the tool round. -/
theorem toolRoundCond_arr (l : List Json) (h : l ≠ []) :
    toolRoundCond (some (.arr (JsonList.ofList l))) = true := by
  simp [toolRoundCond, jsTruthy, jsLength, JsonList.toList_ofList, List.length_pos, h]

/-- The round produces exactly one `get_location` payload per
`get_location` call. -/
theorem locPayloadsSpec_length (fetch : Nat → HttpResp) (specs : List ToolSpec) :
    ∀ k, (locPayloadsSpec fetch specs k).length = countLoc specs := by
  induction specs with
  | nil => intro k; rfl
  | cons s ss ih =>
    intro k
    by_cases h1 : s.name = "get_location"
    · simp only [locPayloadsSpec, h1, if_true, ite_true, List.length_cons, ih]
      simp [countLoc, List.filter_cons, h1]
    · by_cases h2 : s.name = "web_search" ∨ s.name = "get_weather"
      · simp only [locPayloadsSpec, h1, h2, Bool.false_eq_true, if_false, ite_false,
          if_true, ite_true, ih]
        simp [countLoc, List.filter_cons, h1]
      · simp only [locPayloadsSpec, h1, h2, Bool.false_eq_true, if_false, ite_false, ih]
        simp [countLoc, List.filter_cons, h1]

/-- C2 (counterexample): a tool call whose `arguments` string is not JSON
makes `JSON.parse` throw, aborting the loop — no ToolResult is produced for
it (the whole turn errors instead). -/
theorem c2_counterexample :
    specArgsVal c2BadSpec = none ∧
    processToolCalls (fun _ => err500) [mkToolCallJson c2BadSpec] 0 = .error jsSyntaxErrMsg :=
  ⟨rfl, rfl⟩

/-- C2 (amended): for every tool round whose calls have parseable (non-null)
arguments and whose gateway responses do not throw, the loop produces
exactly one ToolResult per ToolCall, with `tool_call_id` equal to the
originating call's id, in the gateway's original order. -/
theorem c2_one_result_per_call_in_order (fetch : Nat → HttpResp) (specs : List ToolSpec)
    (hben : oracleBenign fetch) (hwf : ∀ s ∈ specs, s.wf) :
    ∃ results mapData k',
      processToolCalls fetch (specs.map mkToolCallJson) 0 = .ok (results, mapData, k') ∧
      results.length = specs.length ∧
      results.map (fun m => m.tool_call_id) = specs.map (fun s => some (Json.str s.id)) := by
  obtain ⟨results, k', h, hmap, hlen, _⟩ := processToolCalls_spec fetch hben specs 0 hwf
  exact ⟨results, _, k', h, hlen, hmap⟩

/-- The concrete oracle of the two-`get_location` round is benign. -/
theorem c10Fetch_benign : oracleBenign c10Fetch := by
  intro n
  rcases n with _ | _ | _ | n
  · exact ⟨⟨_, rfl⟩, ⟨_, rfl⟩, fun _ => ⟨_, rfl⟩⟩
  · exact ⟨⟨_, rfl⟩, ⟨_, rfl⟩, fun _ => ⟨_, rfl⟩⟩
  · exact ⟨⟨_, rfl⟩, ⟨_, rfl⟩, fun _ => ⟨_, rfl⟩⟩
  · exact ⟨⟨_, rfl⟩, ⟨_, rfl⟩, fun _ => ⟨_, rfl⟩⟩

/-- The concrete two-`get_location` round is well-shaped. -/
theorem c10Specs_wf : ∀ s ∈ c10Specs, s.wf := by
  intro s hs
  simp [c10Specs] at hs
  rcases hs with rfl | rfl | rfl
  · exact ⟨_, rfl, by decide⟩
  · exact ⟨_, rfl, by decide⟩
  · exact ⟨_, rfl, by decide⟩

/-- C2 (witness): the amended theorem applied to a concrete three-call
round. -/
theorem c2_witness :
    (∀ s ∈ c10Specs, s.wf) ∧
    ∃ results mapData k',
      processToolCalls c10Fetch (c10Specs.map mkToolCallJson) 0 = .ok (results, mapData, k') ∧
      results.length = c10Specs.length ∧
      results.map (fun m => m.tool_call_id) = c10Specs.map (fun s => some (Json.str s.id)) :=
  ⟨c10Specs_wf, c2_one_result_per_call_in_order c10Fetch c10Specs c10Fetch_benign c10Specs_wf⟩

/-- C10: with two or more `get_location` calls in one round, the `mapData`
the turn retains is the last `get_location` payload in the gateway's order
(each dispatch having overwritten the previous one), while every
`get_location` call still carries its own serialized payload in its own
ToolResult; when that retained payload is truthy and the final streaming
call succeeds, the turn's reply is the single `{content, mapData}` JSON
document built from the drained stream and exactly that payload. -/
theorem c10_last_get_location_payload_wins
    (env : ServeEnv) (msgs : List ChatMsg) (mode : String) (specs : List ToolSpec)
    (hok : env.initial.ok = true)
    (hparse : Json.parse env.initial.body.toList = some (initialDataFor specs))
    (hwf : ∀ s ∈ specs, s.wf)
    (hben : oracleBenign env.toolFetch)
    (hcount : 2 ≤ countLoc specs)
    (hfin : env.final.ok = true) :
    ∃ results k',
      processToolCalls env.toolFetch (specs.map mkToolCallJson) 0 =
        .ok (results, (locPayloadsSpec env.toolFetch specs 0).getLast?, k') ∧
      (specs.zip results).filterMap
        (fun p => if p.1.name = "get_location" then some p.2.content else none) =
        (locPayloadsSpec env.toolFetch specs 0).map jsonStringify ∧
      (locPayloadsSpec env.toolFetch specs 0).length = countLoc specs ∧
      (∀ md, (locPayloadsSpec env.toolFetch specs 0).getLast? = some md → jsTruthy md = true →
        serveChat env msgs mode =
          .json 200 (jobj [("content", .str (drainChunks env.final.chunks)),
                           ("mapData", md)])) := by
  have hne : specs ≠ [] := by
    intro h
    rw [h] at hcount
    simp [countLoc] at hcount
  obtain ⟨results, k', hpc, hmap, hlen, hzip⟩ :=
    processToolCalls_spec env.toolFetch hben specs 0 hwf
  refine ⟨results, k', hpc, hzip, locPayloadsSpec_length _ _ _, ?_⟩
  intro md hmd htr
  unfold serveChat serveChatE
  rw [hok]
  simp only [Bool.not_true, Bool.false_eq_true, if_false, ite_false]
  rw [hparse]
  simp only []
  rw [show assistantMessageOf (initialDataFor specs) =
    .ok (some (Json.obj (JsonFields.cons "tool_calls"
      (Json.arr (JsonList.ofList (specs.map mkToolCallJson))) JsonFields.nil))) from rfl]
  simp only []
  rw [show optProp (some (Json.obj (JsonFields.cons "tool_calls"
      (Json.arr (JsonList.ofList (specs.map mkToolCallJson))) JsonFields.nil))) "tool_calls" =
    some (Json.arr (JsonList.ofList (specs.map mkToolCallJson))) from rfl]
  rw [toolRoundCond_arr _ (by simp [hne])]
  simp only [if_true, ite_true]
  rw [JsonList.toList_ofList]
  rw [hpc]
  simp only []
  rw [hfin]
  simp only [Bool.not_true, Bool.false_eq_true, if_false, ite_false]
  rw [hmd]
  simp only []
  rw [htr]
  simp only [if_true, ite_true]

set_option maxRecDepth 8000 in
/-- C10 (witness): the round with `get_location`, `get_weather`,
`get_location` delivers the third call's payload as the `mapData` of the
final JSON result. -/
theorem c10_witness :
    2 ≤ countLoc c10Specs ∧
    serveChat c10Env [] "chat" =
      .json 200 (jobj [("content", .str "ok"), ("mapData", c10LastPayload)]) := by
  obtain ⟨results, k', hpc, hzip, hlen, hserve⟩ :=
    c10_last_get_location_payload_wins c10Env [] "chat" c10Specs rfl rfl
      c10Specs_wf c10Fetch_benign (by decide) rfl
  have h := hserve c10LastPayload rfl rfl
  exact ⟨by decide, by rw [h]; rfl⟩

/-- A buffer with no newline has no complete line. -/
theorem chunksLines_of_splitFirstLine_none {l : List Char}
    (h : splitFirstLine l = none) : chunksLines l = ([], l) := by
  induction l with
  | nil => rfl
  | cons c cs ih =>
    unfold splitFirstLine at h
    by_cases hc : c = '\n'
    · simp [hc] at h
    · rw [if_neg hc] at h
      have h' : splitFirstLine cs = none := by
        cases hcs : splitFirstLine cs with
        | none => rfl
        | some p => rw [hcs] at h; simp at h
      unfold chunksLines
      rw [ih h']
      simp [hc]

/-- Splitting off the first line agrees with the full line decomposition. -/
theorem chunksLines_of_splitFirstLine_some {l a r : List Char}
    (h : splitFirstLine l = some (a, r)) :
    chunksLines l = (a :: (chunksLines r).1, (chunksLines r).2) := by
  induction l generalizing a with
  | nil => simp [splitFirstLine] at h
  | cons c cs ih =>
    unfold splitFirstLine at h
    by_cases hc : c = '\n'
    · rw [if_pos hc] at h
      cases h
      subst hc
      rfl
    · rw [if_neg hc] at h
      cases hcs : splitFirstLine cs with
      | none => rw [hcs] at h; simp at h
      | some p =>
        rcases p with ⟨p1, p2⟩
        rw [hcs] at h
        simp at h
        obtain ⟨rfl, rfl⟩ := h
        conv_lhs => unfold chunksLines
        rw [ih hcs]
        simp [hc]

/-- There are no more complete lines than characters. -/
theorem chunksLines_length_le (l : List Char) : (chunksLines l).1.length ≤ l.length := by
  induction l with
  | nil => simp [chunksLines]
  | cons c cs ih =>
    unfold chunksLines
    by_cases hc : c = '\n'
    · simpa [hc] using ih
    · rw [if_neg hc]
      cases h : (chunksLines cs).1 with
      | nil => simp
      | cons x xs =>
        rw [h] at ih
        simpa using Nat.le_succ_of_le ih

/-- Lines plus remainder rebuild the buffer. -/
theorem unsplit_chunksLines (l : List Char) :
    unsplit (chunksLines l).1 (chunksLines l).2 = l := by
  induction l with
  | nil => rfl
  | cons c cs ih =>
    unfold chunksLines
    by_cases hc : c = '\n'
    · simp only [hc, if_true, ite_true]
      unfold unsplit
      rw [ih]
      simp
    · rw [if_neg hc]
      cases h : (chunksLines cs).1 with
      | nil =>
        rw [h] at ih
        unfold unsplit at ih ⊢
        simp [ih]
      | cons x xs =>
        rw [h] at ih
        unfold unsplit at ih ⊢
        simp only [List.cons_append]
        rw [ih]

/-- A lineless buffer is its own remainder. -/
theorem chunksLines_no_line {l : List Char} (h : (chunksLines l).1 = []) :
    (chunksLines l).2 = l := by
  have := unsplit_chunksLines l
  rw [h] at this
  exact this

/-- No complete line contains a newline, and neither does the remainder. -/
theorem chunksLines_noNl (l : List Char) :
    (∀ x ∈ (chunksLines l).1, '\n' ∉ x) ∧ '\n' ∉ (chunksLines l).2 := by
  induction l with
  | nil => simp [chunksLines]
  | cons c cs ih =>
    unfold chunksLines
    by_cases hc : c = '\n'
    · simp only [hc, if_true, ite_true]
      refine ⟨?_, ih.2⟩
      intro x hx
      rcases List.mem_cons.mp hx with rfl | hx
      · simp
      · exact ih.1 x hx
    · rw [if_neg hc]
      cases h : (chunksLines cs).1 with
      | nil =>
        refine ⟨by simp, ?_⟩
        simp only []
        intro hmem
        rcases List.mem_cons.mp hmem with h' | h'
        · exact hc h'.symm
        · rw [h] at ih; exact ih.2 h'
      | cons x xs =>
        rw [h] at ih
        refine ⟨?_, ih.2⟩
        intro y hy
        rcases List.mem_cons.mp hy with rfl | hy
        · intro hmem
          rcases List.mem_cons.mp hmem with h' | h'
          · exact hc h'.symm
          · exact ih.1 x (by simp) h'
        · exact ih.1 y (by simp [hy])

/-- A newline-free remainder decomposes trivially. -/
theorem chunksLines_of_noNl {r : List Char} (h : '\n' ∉ r) : chunksLines r = ([], r) := by
  induction r with
  | nil => rfl
  | cons c cs ih =>
    have hc : c ≠ '\n' := fun hcn => h (by simp [hcn])
    have hcs : '\n' ∉ cs := fun hmem => h (by simp [hmem])
    unfold chunksLines
    rw [ih hcs, if_neg hc]

/-- Prepending one newline-free line to a buffer. -/
theorem chunksLines_line_append {l : List Char} (h : '\n' ∉ l) (y : List Char) :
    chunksLines (l ++ '\n' :: y) = (l :: (chunksLines y).1, (chunksLines y).2) := by
  induction l with
  | nil =>
    simp only [List.nil_append]
    rfl
  | cons c cs ih =>
    have hc : c ≠ '\n' := fun hcn => h (by simp [hcn])
    have hcs : '\n' ∉ cs := fun hmem => h (by simp [hmem])
    simp only [List.cons_append]
    conv_lhs => unfold chunksLines
    rw [ih hcs, if_neg hc]

/-- Rebuilding newline-free pending lines in front of a buffer. -/
theorem chunksLines_unsplit (ls : List (List Char)) (x : List Char)
    (h : ∀ l ∈ ls, '\n' ∉ l) :
    chunksLines (unsplit ls x) = (ls ++ (chunksLines x).1, (chunksLines x).2) := by
  induction ls with
  | nil => rfl
  | cons l ls' ih =>
    unfold unsplit
    rw [chunksLines_line_append (h l (by simp)) _]
    rw [ih (fun t ht => h t (by simp [ht]))]
    simp

/-- The fuelled client line loop, viewed at the line level: with enough
fuel it processes exactly the buffer's complete lines (stopping after a
`[DONE]`), leaving the unprocessed lines re-joined in front of the
remainder. -/
theorem clientStepF_eq (n : Nat) :
    ∀ (l : List Char) (acc : List String), (chunksLines l).1.length < n →
    clientStepF n l acc =
      (unsplit (procLines (chunksLines l).1 acc).1 (chunksLines l).2,
       (procLines (chunksLines l).1 acc).2) := by
  induction n with
  | zero => intro l acc h; exact absurd h (by simp)
  | succ n ih =>
    intro l acc h
    unfold clientStepF
    cases hsf : splitFirstLine l with
    | none =>
      rw [chunksLines_of_splitFirstLine_none hsf]
      rfl
    | some p =>
      rcases p with ⟨line, rest⟩
      have hcl := chunksLines_of_splitFirstLine_some hsf
      rw [hcl]
      have hlen : (chunksLines rest).1.length < n := by
        rw [hcl] at h
        simpa using Nat.lt_of_succ_lt_succ h
      cases hr : lineResClient line with
      | done =>
        simp only [procLines, hr]
        exact congrArg (fun x => (x, acc)) (unsplit_chunksLines rest).symm
      | delta s =>
        simp only [procLines, hr]
        exact ih rest (acc ++ [s]) hlen
      | skip =>
        simp only [procLines, hr]
        exact ih rest acc hlen

/-- `clientStep` always has enough fuel for its own buffer. -/
theorem clientStep_eq (l : List Char) (acc : List String) :
    clientStep l acc =
      (unsplit (procLines (chunksLines l).1 acc).1 (chunksLines l).2,
       (procLines (chunksLines l).1 acc).2) :=
  clientStepF_eq (l.length + 1) l acc (Nat.lt_succ_of_le (chunksLines_length_le l))

/-- `procLines` consumes up to and including the first `[DONE]` line. -/
theorem procLines_eq (ls : List (List Char)) :
    ∀ acc, procLines ls acc = ((splitAtDone ls).2, acc ++ deltasOf (splitAtDone ls).1) := by
  induction ls with
  | nil => intro acc; simp [procLines, splitAtDone, deltasOf]
  | cons l ls' ih =>
    intro acc
    unfold procLines splitAtDone
    cases hr : lineResClient l with
    | done =>
      rw [if_pos (by simp [isDoneLine, hr])]
      simp [deltasOf, deltaOf, hr]
    | delta s =>
      simp only [hr]
      rw [if_neg (by simp [isDoneLine, hr]), ih (acc ++ [s])]
      simp [deltasOf, deltaOf, hr]
    | skip =>
      simp only [hr]
      rw [if_neg (by simp [isDoneLine, hr]), ih acc]
      simp [deltasOf, deltaOf, hr]

/-- The two parts of `splitAtDone` rebuild the input. -/
theorem splitAtDone_parts (ls : List (List Char)) :
    (splitAtDone ls).1 ++ (splitAtDone ls).2 = ls := by
  induction ls with
  | nil => rfl
  | cons l ls' ih =>
    unfold splitAtDone
    by_cases hd : isDoneLine l
    · simp [hd]
    · simp only [hd, Bool.false_eq_true, if_false, ite_false]
      simp [ih]

/-- Case analysis of `splitAtDone`: either no sentinel occurs and nothing
is left, or the input splits at the first sentinel. -/
theorem splitAtDone_cases (ls : List (List Char)) :
    (noDoneB ls = true ∧ splitAtDone ls = (ls, [])) ∨
    (∃ pre d post, ls = pre ++ d :: post ∧ noDoneB pre = true ∧ isDoneLine d = true ∧
      splitAtDone ls = (pre ++ [d], post)) := by
  induction ls with
  | nil => exact Or.inl ⟨rfl, rfl⟩
  | cons l ls' ih =>
    by_cases hd : isDoneLine l
    · refine Or.inr ⟨[], l, ls', by simp, rfl, hd, ?_⟩
      unfold splitAtDone
      simp [hd]
    · rcases ih with ⟨hnd, hsp⟩ | ⟨pre, d, post, heq, hpre, hdd, hsp⟩
      · refine Or.inl ⟨?_, ?_⟩
        · simp [noDoneB, hd, List.all_cons]
          simpa [noDoneB] using hnd
        · unfold splitAtDone
          simp [hd, hsp]
      · refine Or.inr ⟨l :: pre, d, post, by simp [heq], ?_, hdd, ?_⟩
        · simp [noDoneB, hd, List.all_cons]
          simpa [noDoneB] using hpre
        · unfold splitAtDone
          simp [hd, hsp]

/-- `splitAtDone` splits at the first sentinel. -/
theorem splitAtDone_first (pre : List (List Char)) (d : List Char) (rest : List (List Char))
    (hpre : noDoneB pre = true) (hd : isDoneLine d = true) :
    splitAtDone (pre ++ d :: rest) = (pre ++ [d], rest) := by
  induction pre with
  | nil =>
    unfold splitAtDone
    simp [hd]
  | cons p pre' ih =>
    have hpre2 : (!isDoneLine p) = true ∧ pre'.all (fun x => !isDoneLine x) = true := by
      have h2 := hpre
      unfold noDoneB at h2
      rw [List.all_cons, Bool.and_eq_true] at h2
      exact h2
    have hp : isDoneLine p = false := by simpa using hpre2.1
    have hpre' : noDoneB pre' = true := hpre2.2
    simp only [List.cons_append]
    unfold splitAtDone
    rw [if_neg (by simp [hp])]
    simp [ih hpre']

/-- A `[DONE]` line contributes no delta. -/
theorem deltaOf_of_done {d : List Char} (hd : isDoneLine d = true) : deltaOf d = none := by
  unfold isDoneLine at hd
  unfold deltaOf
  rw [of_decide_eq_true hd]

/-- Appending more bytes: the complete lines of `a ++ b` are those of `a`
followed by those of `a`'s remainder joined with `b`. -/
theorem chunksLines_append (a b : List Char) :
    chunksLines (a ++ b) =
      ((chunksLines a).1 ++ (chunksLines ((chunksLines a).2 ++ b)).1,
       (chunksLines ((chunksLines a).2 ++ b)).2) := by
  induction a with
  | nil => simp [chunksLines]
  | cons c cs ih =>
    by_cases hc : c = '\n'
    · subst hc
      simp only [List.cons_append]
      rw [show chunksLines ('\n' :: (cs ++ b)) =
        ([] :: (chunksLines (cs ++ b)).1, (chunksLines (cs ++ b)).2) from rfl]
      rw [ih]
      rw [show chunksLines ('\n' :: cs) =
        ([] :: (chunksLines cs).1, (chunksLines cs).2) from rfl]
      simp
    · cases h : (chunksLines cs).1 with
      | nil =>
        have hrem := chunksLines_no_line h
        have hcc : chunksLines (c :: cs) = ([], c :: (chunksLines cs).2) := by
          conv_lhs => unfold chunksLines
          rw [if_neg hc, h]
        rw [List.cons_append, hcc]
        simp only [List.nil_append]
        rw [hrem]
        simp [List.cons_append]
      | cons x xs =>
        have hcc : chunksLines (c :: cs) = ((c :: x) :: xs, (chunksLines cs).2) := by
          conv_lhs => unfold chunksLines
          rw [if_neg hc, h]
        have hcb : chunksLines (c :: (cs ++ b)) =
            ((c :: x) :: (xs ++ (chunksLines ((chunksLines cs).2 ++ b)).1),
             (chunksLines ((chunksLines cs).2 ++ b)).2) := by
          conv_lhs => unfold chunksLines
          rw [if_neg hc, ih, h]
          simp [List.cons_append]
        rw [List.cons_append, hcb, hcc]
        simp [List.cons_append]

/-- Appending bytes to a rebuilt buffer appends to the remainder. -/
theorem unsplit_append (ls : List (List Char)) (rem c : List Char) :
    unsplit ls rem ++ c = unsplit ls (rem ++ c) := by
  induction ls with
  | nil => rfl
  | cons l ls' ih =>
    unfold unsplit
    simp [List.append_assoc, ih]

/-- `deltasOf` distributes over append. -/
theorem deltasOf_append (a b : List (List Char)) :
    deltasOf (a ++ b) = deltasOf a ++ deltasOf b :=
  List.filterMap_append a b deltaOf

/-- `noDoneB` on an append. -/
theorem noDoneB_append (a b : List (List Char)) :
    noDoneB (a ++ b) = (noDoneB a && noDoneB b) :=
  List.all_append

/-- The client read loop, simulated at the line level: across any chunk
list it maintains the list of consumed lines (whose deltas it has emitted)
and the pending unconsumed complete lines, which can be nonempty only
after a sentinel line was consumed. -/
theorem clientRun_sim (chunks : List (List Char)) :
    ∀ (s : List Char) (consumed P : List (List Char)),
    consumed ++ P = (chunksLines s).1 →
    (noDoneB consumed = true → P = []) →
    ∃ consumed' P',
      consumed' ++ P' = (chunksLines (s ++ chunks.flatten)).1 ∧
      (noDoneB consumed' = true → P' = []) ∧
      clientRun chunks (unsplit P (chunksLines s).2, deltasOf consumed) =
        (unsplit P' (chunksLines (s ++ chunks.flatten)).2, deltasOf consumed') := by
  induction chunks with
  | nil =>
    intro s consumed P h1 h2
    exact ⟨consumed, P, by simpa using h1, h2, by simp [clientRun]⟩
  | cons c cs ih =>
    intro s consumed P h1 h2
    have hPnl : ∀ l ∈ P, '\n' ∉ l := by
      intro l hl
      exact (chunksLines_noNl s).1 l (h1 ▸ List.mem_append_right consumed hl)
    have hbuf : unsplit P (chunksLines s).2 ++ c = unsplit P ((chunksLines s).2 ++ c) :=
      unsplit_append P _ c
    have hcl : chunksLines (unsplit P ((chunksLines s).2 ++ c)) =
        (P ++ (chunksLines ((chunksLines s).2 ++ c)).1,
         (chunksLines ((chunksLines s).2 ++ c)).2) :=
      chunksLines_unsplit P _ hPnl
    have hstep : clientStep (unsplit P (chunksLines s).2 ++ c) (deltasOf consumed) =
        (unsplit (splitAtDone (P ++ (chunksLines ((chunksLines s).2 ++ c)).1)).2
           (chunksLines ((chunksLines s).2 ++ c)).2,
         deltasOf (consumed ++
           (splitAtDone (P ++ (chunksLines ((chunksLines s).2 ++ c)).1)).1)) := by
      rw [hbuf, clientStep_eq, hcl]
      rw [procLines_eq, deltasOf_append]
    have hac : chunksLines (s ++ c) =
        ((chunksLines s).1 ++ (chunksLines ((chunksLines s).2 ++ c)).1,
         (chunksLines ((chunksLines s).2 ++ c)).2) := chunksLines_append s c
    have h1' : (consumed ++ (splitAtDone (P ++ (chunksLines ((chunksLines s).2 ++ c)).1)).1) ++
        (splitAtDone (P ++ (chunksLines ((chunksLines s).2 ++ c)).1)).2 =
        (chunksLines (s ++ c)).1 := by
      rw [hac]
      rw [List.append_assoc, splitAtDone_parts, ← List.append_assoc, h1]
    have h2' : noDoneB (consumed ++
          (splitAtDone (P ++ (chunksLines ((chunksLines s).2 ++ c)).1)).1) = true →
        (splitAtDone (P ++ (chunksLines ((chunksLines s).2 ++ c)).1)).2 = [] := by
      intro h
      rcases splitAtDone_cases (P ++ (chunksLines ((chunksLines s).2 ++ c)).1) with
        ⟨-, hsp⟩ | ⟨pre, d, post, -, -, hdd, hsp⟩
      · rw [hsp]
      · rw [hsp] at h ⊢
        rw [noDoneB_append, noDoneB_append, Bool.and_eq_true, Bool.and_eq_true] at h
        have := h.2.2
        simp [noDoneB, isDoneLine] at this
        rw [isDoneLine] at hdd
        exact absurd (of_decide_eq_true hdd) this
    obtain ⟨consumed', P', g1, g2, g3⟩ := ih (s ++ c)
      (consumed ++ (splitAtDone (P ++ (chunksLines ((chunksLines s).2 ++ c)).1)).1)
      (splitAtDone (P ++ (chunksLines ((chunksLines s).2 ++ c)).1)).2 h1' h2'
    refine ⟨consumed', P', ?_, g2, ?_⟩
    · rw [List.flatten_cons, ← List.append_assoc]
      exact g1
    · simp only [clientRun]
      rw [hstep]
      have hY2 : (chunksLines (s ++ c)).2 =
          (chunksLines ((chunksLines s).2 ++ c)).2 := by rw [hac]
      rw [← hY2, g3, List.flatten_cons, List.append_assoc]

/-- Any run satisfying the consumption invariant over the full line list
emits exactly the deltas up to the first sentinel, provided no delta
follows a sentinel line. -/
theorem deltas_eq_of_inv (allL consumed P : List (List Char))
    (h1 : consumed ++ P = allL)
    (h2 : noDoneB consumed = true → P = [])
    (H : ∀ pre d post, allL = pre ++ d :: post → isDoneLine d = true →
      deltasOf post = []) :
    deltasOf consumed = deltasOf (splitAtDone allL).1 := by
  rcases splitAtDone_cases allL with ⟨hnd, hsp⟩ | ⟨pre, d, post, heq, hpre, hdd, hsp⟩
  · have hc : noDoneB consumed = true := by
      rw [← h1, noDoneB_append, Bool.and_eq_true] at hnd
      exact hnd.1
    rw [h2 hc] at h1
    rw [hsp]
    rw [← h1]
    simp
  · have hpost : deltasOf post = [] := H pre d post heq hdd
    rw [hsp]
    rw [heq] at h1
    rcases List.append_eq_append_iff.mp h1 with ⟨a, ha1, ha2⟩ | ⟨e, he1, he2⟩
    · rw [ha1, noDoneB_append, Bool.and_eq_true] at hpre
      rw [h2 hpre.1] at ha2
      exact absurd ha2.symm (by simp)
    · cases e with
      | nil =>
        simp only [List.nil_append] at he2
        have hc : noDoneB consumed = true := by
          rw [he1]
          simpa using hpre
        rw [h2 hc] at he2
        exact absurd he2 (List.cons_ne_nil d post)
      | cons x xs =>
        rw [List.cons_append] at he2
        injection he2 with hxd hpost2
        subst hxd
        rw [hpost2, deltasOf_append, List.append_eq_nil] at hpost
        rw [he1, deltasOf_append, deltasOf_append]
        have hxs : ∀ a ∈ xs, deltaOf a = none := by
          simpa [deltasOf, List.filterMap_eq_nil_iff] using hpost.1
        simp [deltasOf, List.filterMap_cons, deltaOf_of_done hdd]
        exact hxs

/-- Over the whole stream delivered as one chunk, the client emits exactly
the deltas up to the first sentinel line. -/
theorem clientDeltas_single (l : List Char) :
    clientDeltas [l] = deltasOf (splitAtDone (chunksLines l).1).1 := by
  have h0 : clientDeltas [l] = (clientStep l []).2 := rfl
  rw [h0, clientStep_eq, procLines_eq]
  simp

/-- C1 (amended): the client-side SSE decoder emits the same ordered list
of content deltas for any chunking of the byte stream as for the whole
stream delivered at once, provided no delta-bearing line occurs after a
`[DONE]` sentinel line (true of well-formed streams, where `[DONE]` is
final). -/
theorem c1_client_decoder_chunk_invariant (chunks : List (List Char))
    (H : ∀ pre d post, (chunksLines chunks.flatten).1 = pre ++ d :: post →
      isDoneLine d = true → deltasOf post = []) :
    clientDeltas chunks = clientDeltas [chunks.flatten] := by
  obtain ⟨consumed', P', g1, g2, g3⟩ :=
    clientRun_sim chunks [] [] [] (by simp [chunksLines]) (fun _ => rfl)
  have g1' : consumed' ++ P' = (chunksLines chunks.flatten).1 := by
    simpa using g1
  have hrun : clientDeltas chunks = deltasOf consumed' := congrArg Prod.snd g3
  rw [hrun, clientDeltas_single]
  exact deltas_eq_of_inv (chunksLines chunks.flatten).1 consumed' P' g1' g2 H

/-- C1 counterexample: the server-side drain of the map-payload branch
splits each decoded chunk on `'\n'` with no cross-chunk buffer, so a frame
whose bytes are split across two chunks loses its content delta: delivered
whole it yields `"hi"`, split it yields `""`. -/
theorem c1_counterexample :
    drainChunks [frameFront ++ frameBack] = "hi" ∧
    drainChunks [frameFront, frameBack] = "" ∧
    drainChunks [frameFront, frameBack] ≠ drainChunks [frameFront ++ frameBack] :=
  ⟨rfl, rfl, by decide⟩

/-- C1 witness: on the concrete frame split across two chunks, the client
decoder is chunk-invariant and recovers the delta (`"hi"`) that the
server-side drain drops. -/
theorem c1_witness :
    clientDeltas [frameFront, frameBack] =
      clientDeltas [([frameFront, frameBack] : List (List Char)).flatten] ∧
    clientDeltas [frameFront, frameBack] = ["hi"] := by
  refine ⟨c1_client_decoder_chunk_invariant [frameFront, frameBack] ?_, rfl⟩
  intro pre d post heq hdone
  have hd : d ∈ (chunksLines ([frameFront, frameBack] : List (List Char)).flatten).1 := by
    rw [heq]
    exact List.mem_append_right _ (List.mem_cons_self _ _)
  rw [show (chunksLines ([frameFront, frameBack] : List (List Char)).flatten).1 =
      ["data: \x7b\"choices\":[\x7b\"delta\":\x7b\"content\":\"hi\"\x7d\x7d]\x7d".toList,
       ([] : List Char)] from rfl] at hd
  rcases List.mem_cons.mp hd with rfl | hd2
  · exact absurd hdone (by decide)
  · rcases List.mem_cons.mp hd2 with rfl | hd3
    · exact absurd hdone (by decide)
    · exact absurd hd3 (List.not_mem_nil d)
